import Mathlib

/-!
# osm_wifi_prep: CSV tokenizer and cleaning pipeline

A shallow embedding of `include/csv.h` and `src/main.cpp`.

A `std::string` is embedded as a `List Char`, one `Char` per C++ `char`.
-/

namespace OsmWifiPrep

/-- A `std::string`: the sequence of its `char`s. -/
abbrev Str := List Char

/-! ## `include/csv.h` -/

/-- The `for` loop of `parseCsvLine` (csv.h:21-47), started at the characters
still to be read, with the loop variables `inQuotes`, `cur` and `out`; at the
end of the line the current field is pushed (csv.h:48). The look-ahead
`line[i + 1] == '"'` followed by `++i` consumes two characters at once. -/
def parseCsvLoop (sep : Char) : List Char → Bool → Str → List Str → List Str
  | [], _, cur, out => out ++ [cur]
  | c :: rest, true, cur, out =>
    if c = '"' then
      match rest with
      | d :: rest2 =>
        if d = '"' then parseCsvLoop sep rest2 true (cur ++ ['"']) out
        else parseCsvLoop sep (d :: rest2) false cur out
      | [] => parseCsvLoop sep [] false cur out
    else parseCsvLoop sep rest true (cur ++ [c]) out
  | c :: rest, false, cur, out =>
    if c = '"' then parseCsvLoop sep rest true cur out
    else if c = sep then parseCsvLoop sep rest false [] (out ++ [cur])
    else if c = '\r' ∨ c = '\n' then parseCsvLoop sep rest false cur out
    else parseCsvLoop sep rest false (cur ++ [c]) out

/-- The function `parseCsvLine(line, sep)` of csv.h:14-50. -/
def parseCsvLine (line : Str) (sep : Char) : List Str :=
  parseCsvLoop sep line false [] []

/-! ## `src/main.cpp`: helpers -/

/-- The lambda `is_ws` of `trim` (main.cpp:17). -/
def isWs (ch : Char) : Bool := ch = ' ' || ch = '\t'

/-- The function `trim` (main.cpp:16-27): `start` skips the leading spaces and
tabs, `end` moves back over the trailing ones but not below `start`, and the
characters in between are returned. -/
def trim (s : Str) : Str :=
  ((s.dropWhile isWs).reverse.dropWhile isWs).reverse

/-- The loop `for (auto& ch : s) ch = tolower(ch)` (main.cpp:34, 146, 153),
with `tolower` of the "C" locale. -/
def lowerStr (s : Str) : Str := s.map Char.toLower

/-- The test `hay.find(needle) != std::string::npos`. -/
def contains (hay needle : Str) : Bool :=
  hay.tails.any fun t => needle.isPrefixOf t

/-- The function `looksLikeHeader` (main.cpp:29-36). -/
def looksLikeHeader (cols : List Str) : Bool :=
  match cols with
  | [] => false
  | c :: _ =>
    let c0 := lowerStr c
    contains c0 "type".toList || contains c0 "@type".toList || c0 == "::type".toList

/-- The values a `double` can take: a finite number, an infinity or a NaN. -/
inductive Dbl where
  | finite (v : ℚ)
  | inf (negative : Bool)
  | nan
  deriving DecidableEq

/-- The test `std::isfinite`. -/
def Dbl.isFinite : Dbl → Bool
  | .finite _ => true
  | _ => false

/-- The struct `Point` (main.cpp:38-44). -/
structure Point where
  osm_type : Str
  osm_id : Str
  name : Str
  lat : Dbl := Dbl.nan
  lon : Dbl := Dbl.nan
  deriving DecidableEq

/-! ## The C library functions that `main.cpp` calls

`std::strtod` and `std::atoi` are not part of the repository; they are modelled
after their description in ISO C (7.22.1) for the "C" locale. -/

/-- The test `isspace` in the "C" locale. -/
def isSpaceC (c : Char) : Bool :=
  c = ' ' || c = '\t' || c = '\n' || c = '\x0b' || c = '\x0c' || c = '\r'

/-- The value of a decimal or hexadecimal digit. -/
def hexDigitVal (c : Char) : Nat :=
  if c.isDigit then c.toNat - 48
  else if 'a' ≤ c ∧ c ≤ 'f' then c.toNat - 87
  else c.toNat - 55

/-- The test `isxdigit`. -/
def isHexDigit (c : Char) : Bool :=
  c.isDigit || ('a' ≤ c && c ≤ 'f') || ('A' ≤ c && c ≤ 'F')

/-- The number written by a digit string in the given base. -/
def digitsVal (base : Nat) (ds : List Char) : Nat :=
  ds.foldl (fun a c => base * a + hexDigitVal c) 0

/-- An optional sign: whether it is a minus, and how many characters it takes. -/
def signOf (s : Str) : Bool × Nat :=
  match s with
  | c :: _ => if c = '-' then (true, 1) else if c = '+' then (false, 1) else (false, 0)
  | [] => (false, 0)

/-- An optional exponent part: the marker character (either case), an optional
sign and at least one decimal digit. Returns the exponent and the number of
characters it takes (0 when there is no exponent part). -/
def exponentPart (marker : Char) (s : Str) : Int × Nat :=
  match s with
  | c :: t =>
    if c.toLower = marker then
      let sg := signOf t
      let ds := (t.drop sg.2).takeWhile Char.isDigit
      if ds = [] then (0, 0)
      else ((if sg.1 then -(digitsVal 10 ds : Int) else (digitsVal 10 ds : Int)),
            1 + sg.2 + ds.length)
    else (0, 0)
  | [] => (0, 0)

/-- The number `m * b ^ e` for an integer exponent. -/
def scale (m : Nat) (b : Nat) (e : Int) : ℚ :=
  if 0 ≤ e then ((m * b ^ e.toNat : Nat) : ℚ) else mkRat m (b ^ (-e).toNat)

/-- A digit sequence with an optional radix point and an optional exponent part,
in base 10 (exponent marker `e`, power of 10) or base 16 (marker `p`, power of
2). Returns the value and the number of characters taken, or `none` when there
is no digit. -/
def numberBody (hex : Bool) (s : Str) : Option (ℚ × Nat) :=
  let isDig := if hex then isHexDigit else Char.isDigit
  let base := if hex then 16 else 10
  let ip := s.takeWhile isDig
  let r1 := s.drop ip.length
  let fp := match r1 with
    | c :: t => if c = '.' then t.takeWhile isDig else []
    | [] => []
  let dot := match r1 with
    | c :: _ => if c = '.' then 1 else 0
    | [] => 0
  if ip = [] ∧ fp = [] then none
  else
    let n := ip.length + dot + fp.length
    let ex := exponentPart (if hex then 'p' else 'e') (s.drop n)
    let perDigit : Int := if hex then 4 else 1
    some (scale (digitsVal base (ip ++ fp)) (if hex then 2 else 10)
            (ex.1 - perDigit * fp.length), n + ex.2)

/-- The characters allowed between the parentheses of `nan(...)`. -/
def isNChar (c : Char) : Bool := c.isAlphanum || c = '_'

/-- The subject sequence of `strtod` after white space and sign: the value (as
written, before rounding) and the number of characters it takes; `none` when no
conversion can be performed. -/
def subject (s : Str) : Option (Dbl × Nat) :=
  let low := lowerStr s
  if "infinity".toList.isPrefixOf low then some (Dbl.inf false, 8)
  else if "inf".toList.isPrefixOf low then some (Dbl.inf false, 3)
  else if "nan".toList.isPrefixOf low then
    let t := s.drop 3
    match t with
    | c :: u =>
      let body := u.takeWhile isNChar
      if c = '(' ∧ (u.drop body.length).head? = some ')' then some (Dbl.nan, 3 + body.length + 2)
      else some (Dbl.nan, 3)
    | [] => some (Dbl.nan, 3)
  else
    let hexBody := if "0x".toList.isPrefixOf low then numberBody true (s.drop 2) else none
    match hexBody with
    | some (v, n) => some (Dbl.finite v, 2 + n)
    | none =>
      match numberBody false s with
      | some (v, n) => some (Dbl.finite v, n)
      | none => none

/-- The largest magnitude that still rounds to a finite `double`:
`2^1024 - 2^970`; from there on the result is `HUGE_VAL`. -/
def overflowBound : ℚ := ((2 ^ 1024 - 2 ^ 970 : Nat) : ℚ)

/-- The number of halvings that bring a natural number below 2, the halvings
limited by `fuel`. -/
def halvings : Nat → Nat → Nat
  | 0, _ => 0
  | fuel + 1, n => if n < 2 then 0 else halvings fuel (n / 2) + 1

/-- The exponent `a` of a positive natural number `n`, with `2^a ≤ n < 2^(a+1)`. -/
def log2Nat (n : Nat) : Nat := halvings n n

/-- The exponent `e` of a positive number `v`, with `2^e ≤ v < 2^(e+1)`: with `a`
and `b` the exponents of numerator and denominator, `e` is `a - b` or
`a - b - 1`. -/
def floorLog2 (v : ℚ) : Int :=
  let a : Int := log2Nat v.num.natAbs
  let b : Int := log2Nat v.den
  if scale 1 2 (a - b) ≤ v then a - b else a - b - 1

/-- Rounding to the nearest integer, a tie going to the even one. -/
def roundHalfEven (m : ℚ) : Int :=
  let f := Rat.floor m
  let r := m - f
  if r < 1 / 2 then f
  else if 1 / 2 < r then f + 1
  else if f % 2 = 0 then f else f + 1

/-- The `double` nearest to a magnitude below `overflowBound` (round to nearest,
ties to even): 53 significant binary digits, and below `2^(-1022)` the fixed
spacing `2^(-1074)` of the subnormal numbers. -/
def roundDouble (v : ℚ) : ℚ :=
  if v = 0 then 0
  else
    let ulp := scale 1 2 (max (floorLog2 v) (-1022) - 52)
    (roundHalfEven (v / ulp) : ℚ) * ulp

/-- Applies rounding and sign to a converted magnitude, and turns a magnitude that
overflows into an infinity. The sign of a zero and of a NaN is not kept. -/
def signed (negative : Bool) : Dbl → Dbl
  | .finite v =>
    if overflowBound ≤ v then .inf negative
    else .finite (if negative then -roundDouble v else roundDouble v)
  | .inf _ => .inf negative
  | .nan => .nan

/-- The call `std::strtod(c, &end)`: the converted value and `end - c`, the number
of characters consumed (0 when no conversion is performed, and the value is
then 0). -/
def strtod (s : Str) : Dbl × Nat :=
  let ws := (s.takeWhile isSpaceC).length
  let sg := signOf (s.drop ws)
  match subject (s.drop (ws + sg.2)) with
  | some (v, n) => (signed sg.1 v, ws + sg.2 + n)
  | none => (Dbl.finite 0, 0)

/-- The function `parseDouble` (main.cpp:46-51): `some out` when it returns true
(`end != c`), `none` when it returns false. -/
def parseDouble (s : Str) : Option Dbl :=
  let r := strtod s
  if r.2 ≠ 0 then some r.1 else none

/-- The conversion of a `long` to a 32-bit `int`: the value modulo `2^32` in the
range from `-2^31` to `2^31 - 1`. -/
def wrapInt32 (z : Int) : Int := (z + 2 ^ 31) % 2 ^ 32 - 2 ^ 31

/-- The call `std::atoi(s)`: white space, an optional sign and decimal digits;
0 when there is no digit. The result is an `int`: a value outside its range is
undefined behaviour in C, and is given here as `(int) strtol(s, 0, 10)` gives
it with a 64-bit `long`, the number written limited to the range of `long` and
then converted to `int`. -/
def atoi (s : Str) : Int :=
  let t := s.dropWhile isSpaceC
  let sg := signOf t
  let n := digitsVal 10 ((t.drop sg.2).takeWhile Char.isDigit)
  let v : Int := if sg.1 then -(n : Int) else (n : Int)
  wrapInt32 (max (-(2 ^ 63)) (min v (2 ^ 63 - 1)))

/-! ## `src/main.cpp`: option parsing -/

/-- The option variables of `main` (main.cpp:85-89). -/
structure Config where
  requireName : Bool := false
  minNameLen : Int := 0
  dedupe : Bool := true
  waysOnly : Bool := false
  relationsOnly : Bool := false
  deriving DecidableEq

deriving instance DecidableEq for Except

/-- The option loop `for (int i = 3; i < argc; ++i)` (main.cpp:91-118), started
at the arguments still to be read. An early `return` is `Except.error` with the
exit code; falling out of the loop is `Except.ok` with the option variables. -/
def parseOptions : List Str → Config → Except Nat Config
  | [], cfg => .ok cfg
  | opt :: rest, cfg =>
    if opt = "--require-name".toList then parseOptions rest { cfg with requireName := true }
    else if opt = "--min-name-len".toList then
      match rest with
      | [] => .error 2
      | v :: rest2 =>
        let n := atoi v
        parseOptions rest2 { cfg with minNameLen := if n < 0 then 0 else n }
    else if opt = "--dedupe".toList then parseOptions rest { cfg with dedupe := true }
    else if opt = "--keep-ways-only".toList then
      parseOptions rest { cfg with waysOnly := true, relationsOnly := false }
    else if opt = "--keep-relations-only".toList then
      parseOptions rest { cfg with relationsOnly := true, waysOnly := false }
    else if opt = "--help".toList ∨ opt = "-h".toList then .error 0
    else .error 2

/-- Argument handling of `main` (main.cpp:77-118) for the whole `argv`
(program name included): the exit code of an early `return`, or the two paths
and the option variables. -/
def parseArgs (argv : List Str) : Except Nat (Str × Str × Config) :=
  match argv with
  | _ :: inPath :: outPath :: opts =>
    match parseOptions opts {} with
    | .ok cfg => .ok (inPath, outPath, cfg)
    | .error code => .error code
  | _ => .error 2

/-! ## `src/main.cpp`: reading and mapping rows -/

/-- The map `idx` (main.cpp:133) as an association list; the newest binding of
a key comes first and hides the older ones, as `idx[key] = c` overwrites. -/
abbrev HeaderMap := List (Str × Nat)

/-- The lookup `idx.find(key)`. -/
def idxFind (idx : HeaderMap) (key : Str) : Option Nat :=
  match idx with
  | [] => none
  | (k, c) :: rest => if k = key then some c else idxFind rest key

/-- The header loop (main.cpp:144-148), from column number `c` on. -/
def buildIdx (idx : HeaderMap) (c : Nat) : List Str → HeaderMap
  | [] => idx
  | col :: rest => buildIdx ((lowerStr (trim col), c) :: idx) (c + 1) rest

/-- The lambda `get` (main.cpp:152-157). -/
def get (idx : HeaderMap) (cols : List Str) (key : Str) : Str :=
  match idxFind idx (lowerStr key) with
  | some i => if h : i < cols.length then trim (cols.get ⟨i, h⟩) else []
  | none => []

/-- The two calls of `parseDouble` and the `continue` after them (main.cpp:177-179,
187-189): the finished point, or `none` when the row is skipped. -/
def withCoords (ty id name slat slon : Str) : Option Point :=
  match parseDouble slat with
  | none => none
  | some lat =>
    match parseDouble slon with
    | none => none
    | some lon => some { osm_type := ty, osm_id := id, name := name, lat := lat, lon := lon }

/-- The header branch of the row mapper (main.cpp:161-179). -/
def mapHeaderRow (idx : HeaderMap) (cols : List Str) : Option Point :=
  let t0 := get idx cols "::type".toList
  let t1 := if t0 = [] then get idx cols "@type".toList else t0
  let ty := if t1 = [] then get idx cols "type".toList else t1
  let i0 := get idx cols "::id".toList
  let i1 := if i0 = [] then get idx cols "@id".toList else i0
  let id := if i1 = [] then get idx cols "id".toList else i1
  let name := get idx cols "name".toList
  let a0 := get idx cols "::lat".toList
  let slat := if a0 = [] then get idx cols "lat".toList else a0
  let o0 := get idx cols "::lon".toList
  let slon := if o0 = [] then get idx cols "lon".toList else o0
  withCoords ty id name slat slon

/-- The positional branch of the row mapper (main.cpp:181-189). -/
def mapPositionalRow (cols : List Str) : Option Point :=
  if h : cols.length < 8 then none
  else
    withCoords (trim (cols.get ⟨0, by omega⟩)) (trim (cols.get ⟨1, by omega⟩))
      (trim (cols.get ⟨2, by omega⟩)) (trim (cols.get ⟨6, by omega⟩))
      (trim (cols.get ⟨7, by omega⟩))

/-- The row mapper (main.cpp:159-190). -/
def mapRow (haveHeader : Bool) (idx : HeaderMap) (cols : List Str) : Option Point :=
  if haveHeader then mapHeaderRow idx cols else mapPositionalRow cols

/-- The conversion `static_cast<int>(n)` of a `size_t` to a 32-bit `int`. -/
def toInt32 (n : Nat) : Int :=
  if n % 2 ^ 32 < 2 ^ 31 then (n % 2 ^ 32 : Nat) else ((n % 2 ^ 32 : Nat) : Int) - 2 ^ 32

/-- The type filter (main.cpp:192-193): true when the record is kept. -/
def typeFilter (cfg : Config) (p : Point) : Bool :=
  if cfg.waysOnly ∧ p.osm_type ≠ "way".toList then false
  else if cfg.relationsOnly ∧ p.osm_type ≠ "relation".toList then false
  else true

/-- The name-required filter (main.cpp:195): true when the record is kept. -/
def requireNameFilter (cfg : Config) (p : Point) : Bool :=
  if cfg.requireName ∧ p.name = [] then false else true

/-- The minimum-name-length filter (main.cpp:196): true when the record is kept. -/
def minNameLenFilter (cfg : Config) (p : Point) : Bool :=
  if toInt32 p.name.length < cfg.minNameLen then false else true

/-- The filter stage (main.cpp:192-196): the three filters in the order of the
source, each one a `continue`. -/
def passesFilters (cfg : Config) (p : Point) : Bool :=
  typeFilter cfg p && requireNameFilter cfg p && minNameLenFilter cfg p

/-- The variables that live across the iterations of the reading loop:
`haveHeader`, `idx` and `pts` (main.cpp:126-134). -/
structure ReadState where
  haveHeader : Bool := false
  idx : HeaderMap := []
  pts : List Point := []

/-- One iteration of the reading loop (main.cpp:138-198) for one line. -/
def processLine (cfg : Config) (st : ReadState) (line : Str) : ReadState :=
  if line = [] then st
  else
    let cols := parseCsvLine line ','
    if cols = [] then st
    else if !st.haveHeader && looksLikeHeader cols then
      { st with haveHeader := true, idx := buildIdx st.idx 0 cols }
    else
      match mapRow st.haveHeader st.idx cols with
      | none => st
      | some p => if passesFilters cfg p then { st with pts := st.pts ++ [p] } else st

/-- The reading loop `while (std::getline(fin, line))` (main.cpp:137-199) over
the lines of the input file. -/
def readLoop (cfg : Config) (lines : List Str) (st : ReadState) : ReadState :=
  lines.foldl (processLine cfg) st

/-- The records `pts` after the reading loop, from the initial state. -/
def readPoints (cfg : Config) (lines : List Str) : List Point :=
  (readLoop cfg lines {}).pts

/-! ## `src/main.cpp`: projection and output -/

/-- The double-precision computations of `main`, whose arithmetic is not
modelled: `fmt` is the text written by `fout << d` for a `double`, `centroid`
the origin `(lat0, lon0)` of main.cpp:207-213, and `projX`, `projY` the
projection of main.cpp:215 and 236-237. -/
structure Numerics where
  fmt : Dbl → Str
  centroid : List Point → Dbl × Dbl
  projX : Dbl × Dbl → Point → Dbl
  projY : Dbl × Dbl → Point → Dbl

/-- The identity key `p.osm_type + ":" + p.osm_id` (main.cpp:231). -/
def identityKey (p : Point) : Str := p.osm_type ++ [':'] ++ p.osm_id

/-- The value `name` of the name column (main.cpp:240). -/
def outName (p : Point) : Str := if p.name = [] then identityKey p else p.name

/-- The flag `needQuotes` (main.cpp:244). -/
def needQuotes (name : Str) : Bool := name.elem ',' || name.elem '"'

/-- The characters written for one character of a quoted field (main.cpp:248-249). -/
def escapeChar (c : Char) : List Char := if c = '"' then ['"', c] else [c]

/-- The quoted form of a field (main.cpp:246-251): a quote, every character
with each quote doubled, a quote. -/
def quoteField (name : Str) : Str := ['"'] ++ name.flatMap escapeChar ++ ['"']

/-- The text written for the name column (main.cpp:244-254). -/
def nameField (name : Str) : Str := if needQuotes name then quoteField name else name

/-- The text of one data row (main.cpp:242-255), the final newline included. -/
def writeRow (nm : Numerics) (origin : Dbl × Dbl) (p : Point) : Str :=
  identityKey p ++ [','] ++ nameField (outName p) ++ [','] ++ nm.fmt p.lat ++ [','] ++
    nm.fmt p.lon ++ [','] ++ nm.fmt (nm.projX origin p) ++ [','] ++
    nm.fmt (nm.projY origin p) ++ ['\n']

/-- The output loop (main.cpp:230-257) with the set `seen` as a list, returning
the records for which the body reaches the write, in the order written. With
`dedupe` on, `seen.insert(key).second` is false exactly when the key is already
in the set, and the key is in the set afterwards. -/
def writtenPoints (dedupe : Bool) : List Point → List Str → List Point
  | [], _ => []
  | p :: rest, seen =>
    if dedupe then
      if identityKey p ∈ seen then writtenPoints dedupe rest seen
      else p :: writtenPoints dedupe rest (identityKey p :: seen)
    else p :: writtenPoints dedupe rest seen

/-- The data rows written by the output loop (main.cpp:230-257). -/
def outputRows (nm : Numerics) (origin : Dbl × Dbl) (dedupe : Bool) (pts : List Point) :
    List Str :=
  (writtenPoints dedupe pts []).map (writeRow nm origin)

/-- The header line written first (main.cpp:224). -/
def headerLine : Str := "id,name,lat,lon,x_m,y_m\n".toList

/-- What a run leaves behind: the exit code, and the lines written to the output
file, `none` when the output file was never opened. -/
structure Outcome where
  exitCode : Nat
  output : Option (List Str)
  deriving DecidableEq

/-- The function `main` (main.cpp:76-264). `input` is the sequence of lines of
the input file as `std::getline` returns them, `none` when the file cannot be
opened; `outputOpens` tells whether the output file can be opened. -/
def run (nm : Numerics) (argv : List Str) (input : Option (List Str)) (outputOpens : Bool) :
    Outcome :=
  match parseArgs argv with
  | .error code => { exitCode := code, output := none }
  | .ok (_, _, cfg) =>
    match input with
    | none => { exitCode := 1, output := none }
    | some lines =>
      let pts := readPoints cfg lines
      if pts = [] then { exitCode := 1, output := none }
      else if outputOpens then
        { exitCode := 0,
          output := some (headerLine :: outputRows nm (nm.centroid pts) cfg.dedupe pts) }
      else { exitCode := 1, output := none }

/-! ## Reassembling a tokenized line -/

/-- Reassembly of a line from its fields with the quoting rule of the output
stage: every field wrapped in quotes with inner quotes doubled (`quoteField`),
the fields joined by the separator. -/
def joinQuoted (sep : Char) (fields : List Str) : Str :=
  [sep].intercalate (fields.map quoteField)

/-! ## Deduplication as the specification words it -/

/-- The records of a sequence that have no earlier record in the sequence with
the same identity key, in their original relative order. -/
def firstOfKey (pts : List Point) : List Point :=
  (pts.enum.filter fun (ip : Nat × Point) =>
    decide (∀ q ∈ pts.take ip.1, identityKey q ≠ identityKey ip.2)).map Prod.snd

/-! ## The options as the loop reads them -/

/-- The arguments that the option loop reads as options: every argument except
the one that follows a `--min-name-len`, which the loop takes as its value. -/
def optionTokens : List Str → List Str
  | [] => []
  | [opt] => [opt]
  | opt :: v :: rest =>
    if opt = "--min-name-len".toList then opt :: optionTokens rest
    else opt :: optionTokens (v :: rest)

/-- The test for one of the two type options. -/
def isTypeOption (opt : Str) : Bool :=
  opt = "--keep-ways-only".toList || opt = "--keep-relations-only".toList

/-- The last type option among the arguments read as options, if there is one. -/
def lastTypeOption (opts : List Str) : Option Str :=
  ((optionTokens opts).filter isTypeOption).getLast?

/-! ## Fixtures for concrete runs -/

/-- A stand-in for the double-precision side in concrete runs: numbers are
written as `num`, `inf` or `nan`, the origin is the first record and the
projection is constantly 0. -/
def sampleNumerics : Numerics where
  fmt := fun d =>
    match d with
    | .finite _ => "num".toList
    | .inf _ => "inf".toList
    | .nan => "nan".toList
  centroid := fun pts =>
    match pts with
    | p :: _ => (p.lat, p.lon)
    | [] => (Dbl.nan, Dbl.nan)
  projX := fun _ _ => Dbl.finite 0
  projY := fun _ _ => Dbl.finite 0

/-- A string with its carriage returns and newlines removed. -/
def dropLineEnds (s : Str) : Str := s.filter fun c => !(c = '\r' || c = '\n')

/-! ## The reading loop as the specification words it -/

/-- The test of the reading loop for a header row (main.cpp:138-142), as long as
no header has been found: the line is not empty and its tokenization looks like
a header. -/
def isHeaderLine (line : Str) : Bool :=
  decide (line ≠ []) && looksLikeHeader (parseCsvLine line ',')

/-- The records of a sequence of rows under one mapper: every non-empty row is
tokenized and mapped, and the record is kept when it passes the filters. -/
def mappedPoints (cfg : Config) (mapper : List Str → Option Point) (lines : List Str) :
    List Point :=
  lines.filterMap fun line =>
    if line = [] then none else (mapper (parseCsvLine line ',')).filter (passesFilters cfg)

/-! ## The option scan as the specification words it -/

/-- The arguments that the option loop reads as options, from left to right,
each with the value the loop takes for it: the argument after a
`--min-name-len` is its value (`none` when there is no argument left), and no
other option takes a value. -/
def optionScan : List Str → List (Str × Option Str)
  | [] => []
  | [opt] => [(opt, none)]
  | opt :: v :: rest =>
    if opt = "--min-name-len".toList then (opt, some v) :: optionScan rest
    else (opt, none) :: optionScan (v :: rest)

/-- The exit code with which the scan ends at an option, if it ends there: 2 at a
`--min-name-len` without value and at an unknown option, 0 at `--help` and `-h`. -/
def stopCode (t : Str × Option Str) : Option Nat :=
  if t.1 = "--require-name".toList ∨ t.1 = "--dedupe".toList ∨
      t.1 = "--keep-ways-only".toList ∨ t.1 = "--keep-relations-only".toList then none
  else if t.1 = "--min-name-len".toList then (if t.2 = none then some 2 else none)
  else if t.1 = "--help".toList ∨ t.1 = "-h".toList then some 0
  else some 2

/-! ## `src/main.cpp`: centroid and projection in exact arithmetic

The formulas of main.cpp:53-56, 206-215 and 236-237 with `double` replaced by a
field `K`; the cosine is a parameter. -/

/-- The constant `kEarthRadiusM` (main.cpp:53). -/
def kEarthRadiusM {K : Type} [Field K] : K := 6371000

/-- The constant `kDegToRad` (main.cpp:54). -/
def kDegToRad {K : Type} [Field K] : K := 314159265358979323846 / 100000000000000000000 / 180

/-- The function `rad` (main.cpp:56). -/
def rad {K : Type} [Field K] (deg : K) : K := deg * kDegToRad

/-- The origin `(lat0, lon0)` (main.cpp:207-213): both sums start at 0, every
record adds its latitude and longitude, and both are divided by the number of
records. -/
def centroidExact {K : Type} [Field K] (coords : List (K × K)) : K × K :=
  let sums := coords.foldl (fun acc c => (acc.1 + c.1, acc.2 + c.2)) ((0 : K), (0 : K))
  (sums.1 / (coords.length : K), sums.2 / (coords.length : K))

/-- The pair `(x, y)` of main.cpp:236-237, with `lat0r = rad(lat0)` of
main.cpp:215, for a record at `(lat, lon) = c` and the origin `(lat0, lon0)`. -/
def projectExact {K : Type} [Field K] (cosf : K → K) (origin c : K × K) : K × K :=
  (rad (c.2 - origin.2) * cosf (rad origin.1) * kEarthRadiusM,
   rad (c.1 - origin.1) * kEarthRadiusM)

/-- The pairs `(x_m, y_m)` of the rows written (main.cpp:206-257) in exact
arithmetic, `coord` giving latitude and longitude of a record as numbers: the
origin is computed once from all the records `pts`, then the output loop
projects the records it writes. -/
def exactXY {K : Type} [Field K] (cosf : K → K) (coord : Point → K × K) (dedupe : Bool)
    (pts : List Point) : List (K × K) :=
  let origin := centroidExact (pts.map coord)
  (writtenPoints dedupe pts []).map fun p => projectExact cosf origin (coord p)

/-- The number a finite `double` stands for; a NaN or an infinity stands for no
number, and 0 is returned for it. -/
def Dbl.value : Dbl → ℚ
  | .finite v => v
  | _ => 0

/-- Latitude and longitude of a record as rational numbers. -/
def ratCoord (p : Point) : ℚ × ℚ := (p.lat.value, p.lon.value)

/-! ## `src/main.cpp`: the resolved type and identifier -/

/-- The type resolved in header mode (main.cpp:162-164). -/
def headerType (idx : HeaderMap) (cols : List Str) : Str :=
  let t0 := get idx cols "::type".toList
  let t1 := if t0 = [] then get idx cols "@type".toList else t0
  if t1 = [] then get idx cols "type".toList else t1

/-- The identifier resolved in header mode (main.cpp:166-168). -/
def headerId (idx : HeaderMap) (cols : List Str) : Str :=
  let i0 := get idx cols "::id".toList
  let i1 := if i0 = [] then get idx cols "@id".toList else i0
  if i1 = [] then get idx cols "id".toList else i1

/-! ## Column resolution as the specification words it -/

/-- The rightmost column, counted from `c` on, whose header cell, trimmed and
lower-cased, is the given name: a column further right is preferred to the
current one. -/
def rightmostFrom (c : Nat) (header : List Str) (name : Str) : Option Nat :=
  match header with
  | [] => none
  | col :: rest =>
    match rightmostFrom (c + 1) rest name with
    | some i => some i
    | none => if lowerStr (trim col) = name then some c else none

/-- The trimmed cell of a data row in the column of the given name: empty when no
column has the name or the row has no such column. -/
def cellOf (header row : List Str) (name : Str) : Str :=
  match rightmostFrom 0 header name with
  | some c => trim (row.getD c [])
  | none => []

/-- The first non-empty string of a list of candidates, empty if there is none. -/
def firstNonEmpty : List Str → Str
  | [] => []
  | s :: rest => if s = [] then firstNonEmpty rest else s

/-! ## `src/main.cpp`: the row mapper with checked column accesses

The row mapper again, every access `cols[i]` written as the partial lookup
`cols[i]?`: the outer `none` stands for an access outside the row. -/

/-- The lambda `get` (main.cpp:152-157) with the access `cols[it->second]`
checked. -/
def getChecked (idx : HeaderMap) (cols : List Str) (key : Str) : Option Str :=
  match idxFind idx (lowerStr key) with
  | some i => if i < cols.length then cols[i]?.map trim else some []
  | none => some []

/-- The header branch of the row mapper (main.cpp:161-179) over `getChecked`. -/
def mapHeaderRowChecked (idx : HeaderMap) (cols : List Str) : Option (Option Point) :=
  (getChecked idx cols "::type".toList).bind fun t0 =>
  (if t0 = [] then getChecked idx cols "@type".toList else some t0).bind fun t1 =>
  (if t1 = [] then getChecked idx cols "type".toList else some t1).bind fun ty =>
  (getChecked idx cols "::id".toList).bind fun i0 =>
  (if i0 = [] then getChecked idx cols "@id".toList else some i0).bind fun i1 =>
  (if i1 = [] then getChecked idx cols "id".toList else some i1).bind fun id =>
  (getChecked idx cols "name".toList).bind fun name =>
  (getChecked idx cols "::lat".toList).bind fun a0 =>
  (if a0 = [] then getChecked idx cols "lat".toList else some a0).bind fun slat =>
  (getChecked idx cols "::lon".toList).bind fun o0 =>
  (if o0 = [] then getChecked idx cols "lon".toList else some o0).bind fun slon =>
  some (withCoords ty id name slat slon)

/-- The positional branch of the row mapper (main.cpp:181-189) with the accesses
`cols[0]`, `cols[1]`, `cols[2]`, `cols[6]` and `cols[7]` checked. -/
def mapPositionalRowChecked (cols : List Str) : Option (Option Point) :=
  if cols.length < 8 then some none
  else
    cols[0]?.bind fun c0 =>
    cols[1]?.bind fun c1 =>
    cols[2]?.bind fun c2 =>
    cols[6]?.bind fun c6 =>
    cols[7]?.bind fun c7 =>
    some (withCoords (trim c0) (trim c1) (trim c2) (trim c6) (trim c7))

/-- The row mapper (main.cpp:159-190) with checked column accesses. -/
def mapRowChecked (haveHeader : Bool) (idx : HeaderMap) (cols : List Str) :
    Option (Option Point) :=
  if haveHeader then mapHeaderRowChecked idx cols else mapPositionalRowChecked cols

/-! ## `src/main.cpp`: the coordinate texts -/

/-- The text handed to `parseDouble` for the latitude: `slat` in header mode
(main.cpp:172-173, 177), `trim(cols[6])` in positional mode (main.cpp:187). -/
def latText (haveHeader : Bool) (idx : HeaderMap) (cols : List Str) : Str :=
  if haveHeader then
    (if get idx cols "::lat".toList = [] then get idx cols "lat".toList
     else get idx cols "::lat".toList)
  else trim (cols.getD 6 [])

/-- The text handed to `parseDouble` for the longitude: `slon` in header mode
(main.cpp:174-175, 177), `trim(cols[7])` in positional mode (main.cpp:187). -/
def lonText (haveHeader : Bool) (idx : HeaderMap) (cols : List Str) : Str :=
  if haveHeader then
    (if get idx cols "::lon".toList = [] then get idx cols "lon".toList
     else get idx cols "::lon".toList)
  else trim (cols.getD 7 [])

/-! ## Number texts as the specification words them -/

/-- A text after its leading white space and its optional sign. -/
def numberText (s : Str) : Str :=
  s.drop ((s.takeWhile isSpaceC).length + (signOf (s.drop (s.takeWhile isSpaceC).length)).2)

/-- The text, after white space and sign, begins with `inf` or `nan` in any
letter case. -/
def spellsInfOrNan (s : Str) : Bool :=
  "inf".toList.isPrefixOf (lowerStr (numberText s)) ||
    "nan".toList.isPrefixOf (lowerStr (numberText s))

/-- The text, after white space and sign, begins with a number whose magnitude as
written is `2^1024 - 2^970` or more. -/
def overflows (s : Str) : Bool :=
  match subject (numberText s) with
  | some (.finite v, _) => decide (overflowBound ≤ v)
  | _ => false

/-! # Theorems -/

/-! ## The tokenizer and the quoting rule -/

/-- Inside quotes a character other than the quote is copied. -/
theorem parseCsvLoop_quoted_copy (sep c : Char) (rest : List Char) (cur : Str)
    (out : List Str) (hc : c ≠ '"') :
    parseCsvLoop sep (c :: rest) true cur out = parseCsvLoop sep rest true (cur ++ [c]) out := by
  cases rest <;> simp [parseCsvLoop, hc]

/-- Inside quotes two quotes in a row give one quote and stay in quoted mode. -/
theorem parseCsvLoop_quoted_escape (sep : Char) (rest : List Char) (cur : Str)
    (out : List Str) :
    parseCsvLoop sep ('"' :: '"' :: rest) true cur out =
      parseCsvLoop sep rest true (cur ++ ['"']) out := by
  simp [parseCsvLoop]

/-- Inside quotes a quote that is not followed by a quote closes quoted mode. -/
theorem parseCsvLoop_quoted_close (sep : Char) (rest : List Char) (cur : Str)
    (out : List Str) (hrest : rest.head? ≠ some '"') :
    parseCsvLoop sep ('"' :: rest) true cur out = parseCsvLoop sep rest false cur out := by
  cases rest with
  | nil => simp [parseCsvLoop]
  | cons d rest2 =>
    have hd : d ≠ '"' := by simpa using hrest
    simp [parseCsvLoop, hd]

/-- In quoted mode the tokenizer reads the escaped characters of a field back as
the field, up to a closing quote that is not followed by another quote. -/
theorem parseCsvLoop_escaped (sep : Char) (f : Str) (rest : List Char) (cur : Str)
    (out : List Str) (hrest : rest.head? ≠ some '"') :
    parseCsvLoop sep (f.flatMap escapeChar ++ '"' :: rest) true cur out =
      parseCsvLoop sep rest false (cur ++ f) out := by
  induction f generalizing cur with
  | nil => simpa using parseCsvLoop_quoted_close sep rest cur out hrest
  | cons c f ih =>
    rw [List.flatMap_cons]
    by_cases hc : c = '"'
    · subst hc
      have h : escapeChar '"' = ['"', '"'] := by simp [escapeChar]
      rw [h]
      simp only [List.cons_append, List.nil_append]
      rw [parseCsvLoop_quoted_escape, ih]
      simp
    · have h : escapeChar c = [c] := by simp [escapeChar, hc]
      rw [h]
      simp only [List.cons_append, List.nil_append]
      rw [parseCsvLoop_quoted_copy sep c _ cur out hc, ih]
      simp

/-- Outside quotes a quoted field is read back as the field, appended to the
current one. -/
theorem parseCsvLoop_quoteField (sep : Char) (f : Str) (rest : List Char) (cur : Str)
    (out : List Str) (hrest : rest.head? ≠ some '"') :
    parseCsvLoop sep (quoteField f ++ rest) false cur out =
      parseCsvLoop sep rest false (cur ++ f) out := by
  have h := parseCsvLoop_escaped sep f rest cur out hrest
  simpa [quoteField, parseCsvLoop] using h

/-- Reassembling a single field gives its quoted form. -/
theorem joinQuoted_singleton (sep : Char) (f : Str) : joinQuoted sep [f] = quoteField f := by
  simp [joinQuoted, List.intercalate]

/-- Reassembling two or more fields puts the separator after the first. -/
theorem joinQuoted_cons_cons (sep : Char) (f g : Str) (rest : List Str) :
    joinQuoted sep (f :: g :: rest) = quoteField f ++ sep :: joinQuoted sep (g :: rest) := by
  simp [joinQuoted, List.intercalate]

/-- Tokenizing a reassembled line appends the fields to the ones already found. -/
theorem parseCsvLoop_joinQuoted (sep : Char) (hsep : sep ≠ '"') (fields : List Str)
    (hne : fields ≠ []) (out : List Str) :
    parseCsvLoop sep (joinQuoted sep fields) false [] out = out ++ fields := by
  induction fields generalizing out with
  | nil => exact absurd rfl hne
  | cons f fs ih =>
    cases fs with
    | nil =>
      have h := parseCsvLoop_quoteField sep f [] [] out (by simp)
      simpa [joinQuoted_singleton, parseCsvLoop] using h
    | cons g rest =>
      have hhead : (sep :: joinQuoted sep (g :: rest)).head? ≠ some '"' := by simpa using hsep
      have h := parseCsvLoop_quoteField sep f (sep :: joinQuoted sep (g :: rest)) [] out hhead
      have ih2 := ih (by simp) (out ++ [f])
      rw [joinQuoted_cons_cons, h]
      simp [parseCsvLoop, hsep, ih2]

/-- The tokenizer always ends by pushing a field: its result is never empty. -/
theorem parseCsvLoop_ne_nil (sep : Char) (line : List Char) (inQuotes : Bool) (cur : Str)
    (out : List Str) : parseCsvLoop sep line inQuotes cur out ≠ [] := by
  induction line, inQuotes, cur, out using parseCsvLoop.induct sep with
  | case1 => simp [parseCsvLoop]
  | case2 cur out rest ih => rwa [parseCsvLoop_quoted_escape]
  | case3 cur out d rest hd ih => rwa [parseCsvLoop_quoted_close _ _ _ _ (by simpa using hd)]
  | case4 cur out ih => rwa [parseCsvLoop_quoted_close _ _ _ _ (by simp)]
  | case5 c rest cur out hc ih => rwa [parseCsvLoop_quoted_copy _ _ _ _ _ hc]
  | case6 => simp_all [parseCsvLoop]
  | case7 => simp_all [parseCsvLoop]
  | case8 => simp_all [parseCsvLoop]
  | case9 => simp_all [parseCsvLoop]

/-- C1: a name that contains a comma or a double quote is written by the output
serializer wrapped in double quotes with every inner double quote doubled, and
tokenizing that text again with separator `,` yields exactly one field, equal to
the original name. -/
theorem C1_quoted_name_roundtrip (name : Str) (h : ',' ∈ name ∨ '"' ∈ name) :
    nameField name = ['"'] ++ name.flatMap (fun c => if c = '"' then ['"', '"'] else [c]) ++ ['"'] ∧
      parseCsvLine (nameField name) ',' = [name] := by
  have hq : needQuotes name = true := by
    rcases h with h | h <;> simp [needQuotes, h]
  have hfield : nameField name = quoteField name := by simp [nameField, hq]
  refine ⟨?_, ?_⟩
  · rw [hfield, quoteField]
    congr 2
    apply List.flatMap_congr
    intro c _
    by_cases hc : c = '"' <;> simp [escapeChar, hc]
  · rw [hfield]
    have h1 := parseCsvLoop_quoteField ',' name [] [] [] (by simp)
    simpa [parseCsvLine, parseCsvLoop] using h1

/-- Witness of C1 at the name `a,"b`. -/
theorem C1_quoted_name_roundtrip_witness :
    (',' ∈ ['a', ',', '"', 'b'] ∨ '"' ∈ ['a', ',', '"', 'b']) ∧
      parseCsvLine (nameField ['a', ',', '"', 'b']) ',' = [['a', ',', '"', 'b']] :=
  ⟨by decide, (C1_quoted_name_roundtrip ['a', ',', '"', 'b'] (by decide)).2⟩

/-- C2: for a separator other than the double quote, writing every field of a
non-empty list wrapped in double quotes with inner quotes doubled, joining with
the separator and tokenizing returns the list; hence tokenizing a line,
reassembling it this way and tokenizing again reproduces the fields of the first
tokenization. -/
theorem C2_reassemble_roundtrip (sep : Char) (hsep : sep ≠ '"') :
    (∀ fields : List Str, fields ≠ [] →
        parseCsvLine ([sep].intercalate (fields.map quoteField)) sep = fields) ∧
      (∀ line : Str,
        parseCsvLine (joinQuoted sep (parseCsvLine line sep)) sep = parseCsvLine line sep) := by
  have key : ∀ fields : List Str, fields ≠ [] →
      parseCsvLine (joinQuoted sep fields) sep = fields := by
    intro fields hne
    have h := parseCsvLoop_joinQuoted sep hsep fields hne []
    simpa [parseCsvLine] using h
  exact ⟨key, fun line => key _ (parseCsvLoop_ne_nil sep line false [] [])⟩

/-- Witness of C2 at separator `;` and the line `a;"b;""c"`. -/
theorem C2_reassemble_roundtrip_witness :
    (';' ≠ '"') ∧
      parseCsvLine (joinQuoted ';' (parseCsvLine ['a', ';', '"', 'b', ';', '"', '"', 'c', '"'] ';')) ';'
        = [['a'], ['b', ';', '"', 'c']] :=
  ⟨by decide, ((C2_reassemble_roundtrip ';' (by decide)).2 _).trans (by decide)⟩

/-- A property of the option variables that every assignment of the option loop
preserves holds when the loop ends normally. -/
theorem parseOptions_invariant (P : Config → Prop)
    (hreq : ∀ c, P c → P { c with requireName := true })
    (hmin : ∀ c (n : Int), P c → P { c with minNameLen := if n < 0 then 0 else n })
    (hded : ∀ c, P c → P { c with dedupe := true })
    (hways : ∀ c, P c → P { c with waysOnly := true, relationsOnly := false })
    (hrel : ∀ c, P c → P { c with relationsOnly := true, waysOnly := false })
    (opts : List Str) (cfg0 cfg : Config) (h0 : P cfg0)
    (h : parseOptions opts cfg0 = .ok cfg) : P cfg := by
  generalize hn : opts.length = n
  induction n using Nat.strong_induction_on generalizing opts cfg0 with
  | _ n ih =>
    cases opts with
    | nil =>
      simp only [parseOptions, Except.ok.injEq] at h
      exact h ▸ h0
    | cons opt rest =>
      cases rest with
      | nil =>
        simp only [List.length_cons, List.length_nil] at hn
        rw [parseOptions] at h
        split_ifs at h
        all_goals first
          | exact ih 0 (by omega) [] _ (hreq _ h0) h rfl
          | exact ih 0 (by omega) [] _ (hded _ h0) h rfl
          | exact ih 0 (by omega) [] _ (hways _ h0) h rfl
          | exact ih 0 (by omega) [] _ (hrel _ h0) h rfl
      | cons v rest2 =>
        simp only [List.length_cons] at hn
        rw [parseOptions] at h
        split_ifs at h
        all_goals first
          | exact ih (rest2.length + 1) (by omega) (v :: rest2) _ (hreq _ h0) h rfl
          | exact ih rest2.length (by omega) rest2 _ (hmin _ _ h0) h rfl
          | exact ih (rest2.length + 1) (by omega) (v :: rest2) _ (hded _ h0) h rfl
          | exact ih (rest2.length + 1) (by omega) (v :: rest2) _ (hways _ h0) h rfl
          | exact ih (rest2.length + 1) (by omega) (v :: rest2) _ (hrel _ h0) h rfl

/-- The option loop never switches deduplication off. -/
theorem parseOptions_dedupe (opts : List Str) (cfg : Config)
    (h : parseOptions opts {} = .ok cfg) : cfg.dedupe = true :=
  parseOptions_invariant (fun c => c.dedupe = true) (fun _ h => h) (fun _ _ h => h)
    (fun _ _ => rfl) (fun _ h => h) (fun _ h => h) opts {} cfg rfl h

/-- The records written, in terms of positions: with the keys of the records
`pre` read so far in `seen`, the loop writes the records of `pts` that have no
record with the same key before them in `pre ++ pts`. -/
theorem writtenPoints_eq_filter (pre pts : List Point) (seen : List Str)
    (hseen : ∀ k, k ∈ seen ↔ ∃ q ∈ pre, identityKey q = k) :
    writtenPoints true pts seen =
      ((pts.enumFrom pre.length).filter fun (ip : Nat × Point) =>
        decide (∀ q ∈ (pre ++ pts).take ip.1, identityKey q ≠ identityKey ip.2)).map Prod.snd := by
  induction pts generalizing pre seen with
  | nil => simp [writtenPoints]
  | cons p rest ih =>
    have htake : (pre ++ p :: rest).take pre.length = pre := by simp
    have hcond : (∀ q ∈ pre, identityKey q ≠ identityKey p) ↔ identityKey p ∉ seen := by
      rw [hseen]
      constructor
      · rintro h ⟨q, hq, hk⟩
        exact h q hq hk
      · intro h q hq hk
        exact h ⟨q, hq, hk⟩
    have hstep : ∀ seen2 : List Str, (∀ k, k ∈ seen2 ↔ ∃ q ∈ pre ++ [p], identityKey q = k) →
        writtenPoints true rest seen2 =
          ((rest.enumFrom (pre.length + 1)).filter fun (ip : Nat × Point) =>
            decide (∀ q ∈ (pre ++ p :: rest).take ip.1, identityKey q ≠ identityKey ip.2)).map
              Prod.snd := by
      intro seen2 h2
      have := ih (pre ++ [p]) seen2 h2
      simpa using this
    by_cases hk : identityKey p ∈ seen
    · have hseen2 : ∀ k, k ∈ seen ↔ ∃ q ∈ pre ++ [p], identityKey q = k := by
        intro k
        rw [hseen]
        constructor
        · rintro ⟨q, hq, rfl⟩
          exact ⟨q, by simp [hq], rfl⟩
        · rintro ⟨q, hq, rfl⟩
          rcases List.mem_append.1 hq with hq | hq
          · exact ⟨q, hq, rfl⟩
          · have : q = p := by simpa using hq
            subst this
            exact (hseen _).1 hk
      have hnot : ¬ ∀ q ∈ pre, identityKey q ≠ identityKey p := fun h => (hcond.1 h) hk
      rw [List.enumFrom_cons, List.filter_cons]
      simp only [htake, hnot, decide_False, Bool.false_eq_true, if_false]
      rw [← hstep seen hseen2]
      simp [writtenPoints, hk]
    · have hseen2 : ∀ k, k ∈ identityKey p :: seen ↔ ∃ q ∈ pre ++ [p], identityKey q = k := by
        intro k
        rw [List.mem_cons, hseen]
        constructor
        · rintro (rfl | ⟨q, hq, rfl⟩)
          · exact ⟨p, by simp, rfl⟩
          · exact ⟨q, by simp [hq], rfl⟩
        · rintro ⟨q, hq, rfl⟩
          rcases List.mem_append.1 hq with hq | hq
          · exact Or.inr ⟨q, hq, rfl⟩
          · have : q = p := by simpa using hq
            subst this
            exact Or.inl rfl
      have hyes : decide (∀ q ∈ pre, identityKey q ≠ identityKey p) = true :=
        decide_eq_true (hcond.2 hk)
      rw [List.enumFrom_cons, List.filter_cons]
      simp only [htake, hyes, if_true, List.map_cons]
      rw [← hstep _ hseen2]
      simp [writtenPoints, hk]

/-- The output loop writes exactly the records that have no earlier record with
the same identity key, in their original order. -/
theorem writtenPoints_eq_firstOfKey (pts : List Point) :
    writtenPoints true pts [] = firstOfKey pts := by
  have h := writtenPoints_eq_filter [] pts [] (by simp)
  simpa [firstOfKey, List.enum] using h

/-- Among the written records, those with a given key: none when the key was seen
before, otherwise the first record of the sequence with that key. -/
theorem writtenPoints_filter_key (k : Str) (pts : List Point) (seen : List Str) :
    (writtenPoints true pts seen).filter (fun p => decide (identityKey p = k)) =
      if k ∈ seen then [] else (pts.find? fun p => decide (identityKey p = k)).toList := by
  induction pts generalizing seen with
  | nil => simp [writtenPoints]
  | cons p rest ih =>
    by_cases hp : identityKey p ∈ seen
    · have hw : writtenPoints true (p :: rest) seen = writtenPoints true rest seen := by
        simp [writtenPoints, hp]
      rw [hw, ih]
      by_cases hk : k ∈ seen
      · simp [hk]
      · have hne : identityKey p ≠ k := fun h => hk (h ▸ hp)
        simp [hk, List.find?_cons, hne]
    · have hw : writtenPoints true (p :: rest) seen =
          p :: writtenPoints true rest (identityKey p :: seen) := by
        simp [writtenPoints, hp]
      rw [hw, List.filter_cons, ih]
      by_cases hpk : identityKey p = k
      · have hk : k ∉ seen := hpk ▸ hp
        simp [hpk, hk, List.find?_cons]
      · have hpk2 : ¬ k = identityKey p := fun h => hpk h.symm
        by_cases hk : k ∈ seen <;> simp [hpk, hpk2, hk, List.find?_cons]

/-- The number of records written is the number of distinct keys not seen before. -/
theorem writtenPoints_length (pts : List Point) (seen : List Str) :
    (writtenPoints true pts seen).length =
      ((pts.map identityKey).toFinset \ seen.toFinset).card := by
  induction pts generalizing seen with
  | nil => simp [writtenPoints]
  | cons p rest ih =>
    by_cases hp : identityKey p ∈ seen
    · have hw : writtenPoints true (p :: rest) seen = writtenPoints true rest seen := by
        simp [writtenPoints, hp]
      rw [hw, ih]
      congr 1
      ext k
      simp only [List.map_cons, List.toFinset_cons, Finset.mem_sdiff, Finset.mem_insert,
        List.mem_toFinset]
      constructor
      · rintro ⟨h1, h2⟩
        exact ⟨Or.inr h1, h2⟩
      · rintro ⟨h1 | h1, h2⟩
        · exact absurd (h1 ▸ hp) h2
        · exact ⟨h1, h2⟩
    · have hw : writtenPoints true (p :: rest) seen =
          p :: writtenPoints true rest (identityKey p :: seen) := by
        simp [writtenPoints, hp]
      rw [hw, List.length_cons, ih]
      have hset : ((p :: rest).map identityKey).toFinset \ seen.toFinset =
          insert (identityKey p)
            ((rest.map identityKey).toFinset \ (identityKey p :: seen).toFinset) := by
        ext k
        simp only [List.map_cons, List.toFinset_cons, Finset.mem_sdiff, Finset.mem_insert,
          List.mem_toFinset]
        constructor
        · rintro ⟨h1 | h1, h2⟩
          · exact Or.inl h1
          · by_cases hk : k = identityKey p
            · exact Or.inl hk
            · exact Or.inr ⟨h1, fun h => h.elim hk h2⟩
        · rintro (h1 | ⟨h1, h2⟩)
          · exact ⟨Or.inl h1, h1 ▸ hp⟩
          · exact ⟨Or.inr h1, fun h => h2 (Or.inr h)⟩
      rw [hset, Finset.card_insert_of_not_mem]
      simp

/-- Two identity keys whose types contain no colon are equal only when the types
are equal and the identifiers are equal. -/
theorem identityKey_injective_of_no_colon (p q : Point) (hp : ':' ∉ p.osm_type)
    (hq : ':' ∉ q.osm_type) (h : identityKey p = identityKey q) :
    p.osm_type = q.osm_type ∧ p.osm_id = q.osm_id := by
  have key : ∀ (s t i j : Str), ':' ∉ s → ':' ∉ t → s ++ [':'] ++ i = t ++ [':'] ++ j →
      s = t ∧ i = j := by
    intro s
    induction s with
    | nil =>
      intro t i j _ ht h
      cases t with
      | nil => simpa using h
      | cons c t =>
        simp only [List.nil_append, List.cons_append, List.singleton_append, List.cons.injEq] at h
        exact absurd (by simp [← h.1]) ht
    | cons c s ih =>
      intro t i j hs ht h
      cases t with
      | nil =>
        simp only [List.nil_append, List.cons_append, List.singleton_append, List.cons.injEq] at h
        exact absurd (by simp [h.1]) hs
      | cons d t =>
        simp only [List.cons_append, List.cons.injEq] at h
        have hs2 : ':' ∉ s := fun hm => hs (List.mem_cons_of_mem _ hm)
        have ht2 : ':' ∉ t := fun hm => ht (List.mem_cons_of_mem _ hm)
        have := ih t i j hs2 ht2 (by simpa using h.2)
        exact ⟨by rw [h.1, this.1], this.2⟩
  exact key _ _ _ _ hp hq h

/-- The output loop in terms of identity keys, with the options as parsed: the rows
written are those of the records that have no earlier record with the same
identity key, in their original order; of the records with one identity key
the first in input order is written and no other; for records whose types hold
no colon, equal keys mean equal type and equal identifier; and the number of
rows is the number of distinct identity keys. -/
theorem outputRows_first_of_key (nm : Numerics) (origin : Dbl × Dbl) (opts : List Str)
    (cfg : Config) (pts : List Point) (hcfg : parseOptions opts {} = .ok cfg) :
    outputRows nm origin cfg.dedupe pts = (firstOfKey pts).map (writeRow nm origin) ∧
      (∀ p ∈ pts, ∃ first,
        pts.find? (fun q => decide (identityKey q = identityKey p)) = some first ∧
        (writtenPoints cfg.dedupe pts []).filter
          (fun q => decide (identityKey q = identityKey p)) = [first]) ∧
      (∀ p q : Point, ':' ∉ p.osm_type → ':' ∉ q.osm_type →
        (identityKey p = identityKey q ↔ p.osm_type = q.osm_type ∧ p.osm_id = q.osm_id)) ∧
      (outputRows nm origin cfg.dedupe pts).length = (pts.map identityKey).toFinset.card := by
  rw [outputRows, parseOptions_dedupe opts cfg hcfg]
  refine ⟨by rw [writtenPoints_eq_firstOfKey], ?_, ?_, ?_⟩
  · intro p hp
    rw [writtenPoints_filter_key]
    cases hf : pts.find? (fun q => decide (identityKey q = identityKey p)) with
    | none =>
      have := List.find?_eq_none.1 hf p hp
      simp at this
    | some first => exact ⟨first, rfl, by simp⟩
  · intro p q hp hq
    constructor
    · exact identityKey_injective_of_no_colon p q hp hq
    · rintro ⟨h1, h2⟩
      simp [identityKey, h1, h2]
  · rw [List.length_map, writtenPoints_length]
    simp

/-- C3 (the code at the failing input): the rows `a:b,c,...`, `a,b:c,...`,
`a,b:c,...` give three records with the one identity key `a:b:c`; only the first
is written, so of the two records that share type `a` and identifier `b:c` none
is written. -/
theorem C3_shared_pair_not_written :
    readPoints {} ["a:b,c,n,,,,1,2".toList, "a,b:c,m,,,,1,2".toList, "a,b:c,k,,,,1,2".toList] =
        [{ osm_type := "a:b".toList, osm_id := "c".toList, name := "n".toList,
           lat := Dbl.finite 1, lon := Dbl.finite 2 },
         { osm_type := "a".toList, osm_id := "b:c".toList, name := "m".toList,
           lat := Dbl.finite 1, lon := Dbl.finite 2 },
         { osm_type := "a".toList, osm_id := "b:c".toList, name := "k".toList,
           lat := Dbl.finite 1, lon := Dbl.finite 2 }] ∧
      writtenPoints true
        (readPoints {} ["a:b,c,n,,,,1,2".toList, "a,b:c,m,,,,1,2".toList,
          "a,b:c,k,,,,1,2".toList]) [] =
        [{ osm_type := "a:b".toList, osm_id := "c".toList, name := "n".toList,
           lat := Dbl.finite 1, lon := Dbl.finite 2 }] ∧
      (writtenPoints true
        (readPoints {} ["a:b,c,n,,,,1,2".toList, "a,b:c,m,,,,1,2".toList,
          "a,b:c,k,,,,1,2".toList]) []).filter
        (fun q => decide (q.osm_type = "a".toList ∧ q.osm_id = "b:c".toList)) = [] := by
  decide!

/-! ## The written row -/

/-- One iteration of the reading loop leaves `pts` as it is or appends one record,
which the row mapper produced from the tokenized line and which passed the
filters. -/
theorem processLine_pts (cfg : Config) (st : ReadState) (line : Str) :
    (processLine cfg st line).pts = st.pts ∨
      ∃ p, mapRow st.haveHeader st.idx (parseCsvLine line ',') = some p ∧
        passesFilters cfg p = true ∧ (processLine cfg st line).pts = st.pts ++ [p] := by
  unfold processLine
  by_cases h1 : line = []
  · simp [h1]
  · by_cases h2 : parseCsvLine line ',' = []
    · simp [h1, h2]
    · by_cases h3 : (!st.haveHeader && looksLikeHeader (parseCsvLine line ',')) = true
      · simp [h1, h2, h3]
      · cases hm : mapRow st.haveHeader st.idx (parseCsvLine line ',') with
        | none => simp [h1, h2, h3, hm]
        | some p =>
          by_cases hf : passesFilters cfg p = true
          · right
            exact ⟨p, rfl, hf, by simp [h1, h2, h3, hm, hf]⟩
          · simp [h1, h2, h3, hm, hf]

/-- A property that holds of every record the row mapper can produce and the
filters let pass holds of every record collected by the reading loop. -/
theorem readLoop_forall (cfg : Config) (Q : Point → Prop)
    (hQ : ∀ haveHeader idx cols p, mapRow haveHeader idx cols = some p →
      passesFilters cfg p = true → Q p)
    (lines : List Str) (st : ReadState) (hst : ∀ p ∈ st.pts, Q p) :
    ∀ p ∈ (readLoop cfg lines st).pts, Q p := by
  induction lines generalizing st with
  | nil => simpa [readLoop] using hst
  | cons line rest ih =>
    have hstep : ∀ p ∈ (processLine cfg st line).pts, Q p := by
      rcases processLine_pts cfg st line with h | ⟨q, hm, hf, h⟩
      · rw [h]; exact hst
      · rw [h]
        intro p hp
        rcases List.mem_append.1 hp with hp | hp
        · exact hst p hp
        · have : p = q := by simpa using hp
          exact this ▸ hQ _ _ _ q hm hf
    have := ih (processLine cfg st line) hstep
    simpa [readLoop] using this

/-- A property of every mapped and filtered record holds of every record read. -/
theorem readPoints_forall (cfg : Config) (Q : Point → Prop)
    (hQ : ∀ haveHeader idx cols p, mapRow haveHeader idx cols = some p →
      passesFilters cfg p = true → Q p)
    (lines : List Str) : ∀ p ∈ readPoints cfg lines, Q p :=
  readLoop_forall cfg Q hQ lines {} (by simp)

/-- Every record written by the output loop is one of the records read. -/
theorem writtenPoints_subset (dedupe : Bool) (pts : List Point) (seen : List Str) :
    ∀ p ∈ writtenPoints dedupe pts seen, p ∈ pts := by
  induction pts generalizing seen with
  | nil => simp [writtenPoints]
  | cons q rest ih =>
    intro p hp
    rw [writtenPoints] at hp
    split_ifs at hp with h1 h2
    · exact List.mem_cons_of_mem _ (ih _ p hp)
    · rcases List.mem_cons.1 hp with h | h
      · exact h ▸ List.mem_cons_self _ _
      · exact List.mem_cons_of_mem _ (ih _ p h)
    · rcases List.mem_cons.1 hp with h | h
      · exact h ▸ List.mem_cons_self _ _
      · exact List.mem_cons_of_mem _ (ih _ p h)

/-- C5: when "ways only" is active every record that passes the filter stage, and
so every record written, has type exactly `way`; when "relations only" is active
every such record has type exactly `relation`; when neither is active the type
filter drops no record. -/
theorem C5_type_filter (cfg : Config) (lines : List Str) :
    (cfg.waysOnly = true →
      (∀ p ∈ readPoints cfg lines, p.osm_type = "way".toList) ∧
      (∀ p ∈ writtenPoints cfg.dedupe (readPoints cfg lines) [], p.osm_type = "way".toList)) ∧
    (cfg.relationsOnly = true →
      (∀ p ∈ readPoints cfg lines, p.osm_type = "relation".toList) ∧
      (∀ p ∈ writtenPoints cfg.dedupe (readPoints cfg lines) [],
        p.osm_type = "relation".toList)) ∧
    (cfg.waysOnly = false → cfg.relationsOnly = false → ∀ p, typeFilter cfg p = true) := by
  have hway : ∀ p, cfg.waysOnly = true → passesFilters cfg p = true →
      p.osm_type = "way".toList := by
    intro p hw hf
    have ht : typeFilter cfg p = true := by
      simp only [passesFilters, Bool.and_eq_true] at hf
      exact hf.1.1
    by_contra hne
    rw [typeFilter, if_pos ⟨hw, hne⟩] at ht
    exact Bool.false_ne_true ht
  have hrel : ∀ p, cfg.relationsOnly = true → passesFilters cfg p = true →
      p.osm_type = "relation".toList := by
    intro p hr hf
    have ht : typeFilter cfg p = true := by
      simp only [passesFilters, Bool.and_eq_true] at hf
      exact hf.1.1
    by_contra hne
    rw [typeFilter] at ht
    split_ifs at ht with h1 h2
    exact h2 ⟨hr, hne⟩
  refine ⟨fun hw => ?_, fun hr => ?_, fun hw hr p => by simp [typeFilter, hw, hr]⟩
  · have h := readPoints_forall cfg (fun p => p.osm_type = "way".toList)
      (fun _ _ _ p _ hf => hway p hw hf) lines
    exact ⟨h, fun p hp => h p (writtenPoints_subset _ _ _ p hp)⟩
  · have h := readPoints_forall cfg (fun p => p.osm_type = "relation".toList)
      (fun _ _ _ p _ hf => hrel p hr hf) lines
    exact ⟨h, fun p hp => h p (writtenPoints_subset _ _ _ p hp)⟩

/-- Witness of C5: with "ways only" on, of the rows `way,1,...` and `node,2,...`
only the way is read. -/
theorem C5_type_filter_witness :
    readPoints { waysOnly := true }
        ["way,1,Cafe,,,,1,2".toList, "node,2,Bar,,,,1,2".toList] =
      [{ osm_type := "way".toList, osm_id := "1".toList, name := "Cafe".toList,
         lat := Dbl.finite 1, lon := Dbl.finite 2 }] ∧
    ∀ p ∈ readPoints { waysOnly := true }
        ["way,1,Cafe,,,,1,2".toList, "node,2,Bar,,,,1,2".toList], p.osm_type = "way".toList :=
  ⟨by decide!, ((C5_type_filter { waysOnly := true }
    ["way,1,Cafe,,,,1,2".toList, "node,2,Bar,,,,1,2".toList]).1 rfl).1⟩

/-! ## Option parsing -/

/-- The effect of one argument read as an option on the pair
(`waysOnly`, `relationsOnly`). -/
theorem parseOptions_type_flags (opts : List Str) (cfg0 cfg : Config)
    (h : parseOptions opts cfg0 = .ok cfg) :
    (cfg.waysOnly, cfg.relationsOnly) =
      match lastTypeOption opts with
      | none => (cfg0.waysOnly, cfg0.relationsOnly)
      | some o => (decide (o = "--keep-ways-only".toList),
          decide (o = "--keep-relations-only".toList)) := by
  generalize hn : opts.length = n
  induction n using Nat.strong_induction_on generalizing opts cfg0 with
  | _ n ih =>
    have hlast : ∀ (o : Str) (l : List Str), isTypeOption o = true →
        (match ((o :: l).filter isTypeOption).getLast? with
          | none => (cfg0.waysOnly, cfg0.relationsOnly)
          | some o2 => (decide (o2 = "--keep-ways-only".toList),
              decide (o2 = "--keep-relations-only".toList))) =
        (match (l.filter isTypeOption).getLast? with
          | none => (decide (o = "--keep-ways-only".toList),
              decide (o = "--keep-relations-only".toList))
          | some o2 => (decide (o2 = "--keep-ways-only".toList),
              decide (o2 = "--keep-relations-only".toList))) := by
      intro o l ho
      rw [List.filter_cons_of_pos ho]
      cases hl : l.filter isTypeOption with
      | nil => simp
      | cons a t =>
        rw [List.getLast?_cons_cons]
        cases hg : (a :: t).getLast? with
        | none => simp at hg
        | some x => rfl
    have hskip : ∀ (o : Str) (l : List Str), isTypeOption o = false →
        ((o :: l).filter isTypeOption) = l.filter isTypeOption := by
      intro o l ho
      simp [ho]
    cases opts with
    | nil =>
      simp only [parseOptions, Except.ok.injEq] at h
      subst h
      simp [lastTypeOption, optionTokens]
    | cons opt rest =>
      cases rest with
      | nil =>
        simp only [List.length_cons, List.length_nil] at hn
        rw [parseOptions] at h
        split_ifs at h with h1 h2 h3 h4 h5
        · have := ih 0 (by omega) [] _ h rfl
          have ho : isTypeOption opt = false := by rw [h1]; decide
          simpa [lastTypeOption, optionTokens, ho] using this
        · have := ih 0 (by omega) [] _ h rfl
          have ho : isTypeOption opt = false := by rw [h3]; decide
          simpa [lastTypeOption, optionTokens, ho] using this
        · have := ih 0 (by omega) [] _ h rfl
          have ho : isTypeOption opt = true := by rw [h4]; decide
          simp only [lastTypeOption, optionTokens, List.filter_nil, List.getLast?_nil] at this
          simp only [lastTypeOption, optionTokens, List.filter_cons_of_pos ho,
            List.getLast?_singleton]
          rw [this, h4]
          rfl
        · have := ih 0 (by omega) [] _ h rfl
          have ho : isTypeOption opt = true := by rw [h5]; decide
          simp only [lastTypeOption, optionTokens, List.filter_nil, List.getLast?_nil] at this
          simp only [lastTypeOption, optionTokens, List.filter_cons_of_pos ho,
            List.getLast?_singleton]
          rw [this, h5]
          rfl
      | cons v rest2 =>
        simp only [List.length_cons] at hn
        rw [parseOptions] at h
        split_ifs at h with h1 h2 h3 h4 h5
        · have := ih (rest2.length + 1) (by omega) (v :: rest2) _ h rfl
          have ho : isTypeOption opt = false := by rw [h1]; decide
          have hne : opt ≠ "--min-name-len".toList := by rw [h1]; decide
          rw [this]
          simp only [lastTypeOption, optionTokens, if_neg hne, hskip _ _ ho]
        · have := ih rest2.length (by omega) rest2 _ h rfl
          have ho : isTypeOption opt = false := by rw [h2]; decide
          rw [this]
          simp only [lastTypeOption, optionTokens, if_pos h2, hskip _ _ ho]
        · have := ih (rest2.length + 1) (by omega) (v :: rest2) _ h rfl
          have ho : isTypeOption opt = false := by rw [h3]; decide
          rw [this]
          simp only [lastTypeOption, optionTokens, if_neg h2, hskip _ _ ho]
        · have := ih (rest2.length + 1) (by omega) (v :: rest2) _ h rfl
          have ho : isTypeOption opt = true := by rw [h4]; decide
          rw [this]
          simp only [lastTypeOption, optionTokens, if_neg h2]
          rw [hlast _ _ ho, h4]
          rfl
        · have := ih (rest2.length + 1) (by omega) (v :: rest2) _ h rfl
          have ho : isTypeOption opt = true := by rw [h5]; decide
          rw [this]
          simp only [lastTypeOption, optionTokens, if_neg h2]
          rw [hlast _ _ ho, h5]
          rfl

/-- Without a `--min-name-len` every argument is read as an option. -/
theorem optionTokens_eq_self (opts : List Str) (h : "--min-name-len".toList ∉ opts) :
    optionTokens opts = opts := by
  induction opts with
  | nil => rfl
  | cons opt rest ih =>
    have h1 : opt ≠ "--min-name-len".toList := fun e => h (e ▸ List.mem_cons_self _ _)
    have h2 : "--min-name-len".toList ∉ rest := fun m => h (List.mem_cons_of_mem _ m)
    cases rest with
    | nil => rfl
    | cons v rest2 => rw [optionTokens, if_neg h1, ih h2]

/-- C6 (as amended): a list of options that parses successfully never leaves both
"ways only" and "relations only" set; if `--keep-ways-only` or
`--keep-relations-only` occurs among the arguments read as options (every
argument except the value that follows a `--min-name-len`), the active one is
the one occurring last among them, and if neither occurs there both are off. -/
theorem C6_type_options_exclusive (opts : List Str) (cfg : Config)
    (h : parseOptions opts {} = .ok cfg) :
    ¬(cfg.waysOnly = true ∧ cfg.relationsOnly = true) ∧
      (lastTypeOption opts = some "--keep-ways-only".toList →
        cfg.waysOnly = true ∧ cfg.relationsOnly = false) ∧
      (lastTypeOption opts = some "--keep-relations-only".toList →
        cfg.relationsOnly = true ∧ cfg.waysOnly = false) ∧
      (lastTypeOption opts = none → cfg.waysOnly = false ∧ cfg.relationsOnly = false) ∧
      (lastTypeOption opts = none ∨ lastTypeOption opts = some "--keep-ways-only".toList ∨
        lastTypeOption opts = some "--keep-relations-only".toList) ∧
      ("--min-name-len".toList ∉ opts → optionTokens opts = opts) := by
  have hflags := parseOptions_type_flags opts {} cfg h
  have hcases : lastTypeOption opts = none ∨
      lastTypeOption opts = some "--keep-ways-only".toList ∨
      lastTypeOption opts = some "--keep-relations-only".toList := by
    cases hl : lastTypeOption opts with
    | none => exact Or.inl rfl
    | some o =>
      have hmem : o ∈ (optionTokens opts).filter isTypeOption :=
        List.mem_of_getLast?_eq_some hl
      have ho : isTypeOption o = true := (List.mem_filter.1 hmem).2
      simp only [isTypeOption, Bool.or_eq_true, decide_eq_true_eq] at ho
      rcases ho with ho | ho
      · exact Or.inr (Or.inl (by rw [ho]))
      · exact Or.inr (Or.inr (by rw [ho]))
  have hw : lastTypeOption opts = some "--keep-ways-only".toList →
      cfg.waysOnly = true ∧ cfg.relationsOnly = false := by
    intro hl
    rw [hl] at hflags
    have h1 := congrArg Prod.fst hflags
    have h2 := congrArg Prod.snd hflags
    exact ⟨h1.trans (by decide), h2.trans (by decide)⟩
  have hr : lastTypeOption opts = some "--keep-relations-only".toList →
      cfg.relationsOnly = true ∧ cfg.waysOnly = false := by
    intro hl
    rw [hl] at hflags
    have h1 := congrArg Prod.fst hflags
    have h2 := congrArg Prod.snd hflags
    exact ⟨h2.trans (by decide), h1.trans (by decide)⟩
  have hn : lastTypeOption opts = none → cfg.waysOnly = false ∧ cfg.relationsOnly = false := by
    intro hl
    rw [hl] at hflags
    exact ⟨congrArg Prod.fst hflags, congrArg Prod.snd hflags⟩
  refine ⟨?_, hw, hr, hn, hcases, optionTokens_eq_self opts⟩
  rintro ⟨h1, h2⟩
  rcases hcases with hl | hl | hl
  · rw [(hn hl).1] at h1; exact Bool.false_ne_true h1
  · rw [(hw hl).2] at h2; exact Bool.false_ne_true h2
  · rw [(hr hl).2] at h1; exact Bool.false_ne_true h1

/-- Witness of C6: `--keep-ways-only --require-name --keep-relations-only` leaves
"relations only" active. -/
theorem C6_type_options_exclusive_witness :
    parseOptions ["--keep-ways-only".toList, "--require-name".toList,
        "--keep-relations-only".toList] {} =
      .ok { requireName := true, relationsOnly := true } ∧
    ¬(({ requireName := true, relationsOnly := true } : Config).waysOnly = true ∧
      ({ requireName := true, relationsOnly := true } : Config).relationsOnly = true) :=
  ⟨by decide, (C6_type_options_exclusive ["--keep-ways-only".toList, "--require-name".toList,
    "--keep-relations-only".toList] { requireName := true, relationsOnly := true }
    (by decide)).1⟩

/-- Counterexample to C6 as stated: in
`prog in out --keep-relations-only --min-name-len --keep-ways-only` the arguments
parse successfully and `--keep-ways-only` is the type option that occurs last in
the list, but it is taken as the value of `--min-name-len`, and "relations only"
stays the active one. -/
theorem C6_counterexample :
    parseArgs ["prog".toList, "in".toList, "out".toList, "--keep-relations-only".toList,
        "--min-name-len".toList, "--keep-ways-only".toList] =
      .ok ("in".toList, "out".toList, { relationsOnly := true, waysOnly := false }) ∧
    (["--keep-relations-only".toList, "--min-name-len".toList,
        "--keep-ways-only".toList].filter isTypeOption).getLast? =
      some "--keep-ways-only".toList := by
  decide!

/-! ## The minimum-name-length filter -/

/-- The result of `atoi` is in the range of a 32-bit `int`. -/
theorem atoi_range (s : Str) : -(2 ^ 31) ≤ atoi s ∧ atoi s < 2 ^ 31 := by
  unfold atoi wrapInt32
  dsimp only
  constructor <;> omega

/-- C8: the value of the name column is the name of the record when the name is
non-empty and the identity key (type, a colon, identifier) when it is empty;
neither this value nor the text written for it is ever empty, and that text
stands in the row right after the identity key and a comma. -/
theorem C8_name_fallback (p : Point) :
    outName p = (if p.name = [] then p.osm_type ++ [':'] ++ p.osm_id else p.name) ∧
      outName p ≠ [] ∧ nameField (outName p) ≠ [] ∧
      ∀ (nm : Numerics) (origin : Dbl × Dbl), ∃ rest : Str,
        writeRow nm origin p = identityKey p ++ [','] ++ nameField (outName p) ++ ',' :: rest := by
  have hne : outName p ≠ [] := by
    unfold outName
    split_ifs with h
    · simp [identityKey]
    · exact h
  refine ⟨rfl, hne, ?_, fun nm origin => ⟨_, by simp [writeRow]; rfl⟩⟩
  unfold nameField
  split_ifs
  · simp [quoteField]
  · exact hne

/-! ## The positional row mapper -/

/-- The two coordinate texts decide whether a row becomes a record. -/
theorem withCoords_eq_some (ty id name slat slon : Str) (p : Point) :
    withCoords ty id name slat slon = some p ↔
      ∃ lat lon, parseDouble slat = some lat ∧ parseDouble slon = some lon ∧
        p = { osm_type := ty, osm_id := id, name := name, lat := lat, lon := lon } := by
  unfold withCoords
  cases h1 : parseDouble slat with
  | none => simp
  | some lat =>
    cases h2 : parseDouble slon with
    | none => simp
    | some lon =>
      simp only [Option.some.injEq]
      constructor
      · intro h; exact ⟨lat, lon, rfl, rfl, h.symm⟩
      · rintro ⟨a, b, ha, hb, hp⟩; rw [hp, ha, hb]

/-- The positional mapper in terms of the fields 0, 1, 2, 6 and 7 of the row. -/
theorem mapPositionalRow_eq_some (cols : List Str) (p : Point) :
    mapPositionalRow cols = some p ↔
      8 ≤ cols.length ∧ ∃ lat lon,
        parseDouble (trim (cols.getD 6 [])) = some lat ∧
        parseDouble (trim (cols.getD 7 [])) = some lon ∧
        p = { osm_type := trim (cols.getD 0 []), osm_id := trim (cols.getD 1 []),
              name := trim (cols.getD 2 []), lat := lat, lon := lon } := by
  unfold mapPositionalRow
  by_cases h : cols.length < 8
  · simp only [h, dite_true]
    constructor
    · intro hn; exact absurd hn (by simp)
    · rintro ⟨h8, _⟩; omega
  · have hg : ∀ (i : Nat) (hi : i < cols.length), cols.get ⟨i, hi⟩ = cols.getD i [] := by
      intro i hi
      simp [List.getD_eq_getElem?_getD, List.getElem?_eq_getElem hi]
    simp only [h, dite_false, hg, withCoords_eq_some]
    constructor
    · intro hx; exact ⟨by omega, hx⟩
    · rintro ⟨_, hx⟩; exact hx

/-- C9: when no header has been detected, a row is mapped to a record exactly when
it tokenizes into at least 8 fields and `parseDouble` accepts the trimmed fields
6 and 7; the record then has type, identifier and name equal to the trimmed
fields 0, 1 and 2 and latitude and longitude as parsed from fields 6 and 7; the
reading loop appends nothing but such a record, and a row with fewer than 8
fields leaves the read records, and so their count, unchanged. -/
theorem C9_positional_mapping (cfg : Config) (st : ReadState) (line : Str)
    (hh : st.haveHeader = false) :
    (∀ p, mapRow st.haveHeader st.idx (parseCsvLine line ',') = some p ↔
      8 ≤ (parseCsvLine line ',').length ∧ ∃ lat lon,
        parseDouble (trim ((parseCsvLine line ',').getD 6 [])) = some lat ∧
        parseDouble (trim ((parseCsvLine line ',').getD 7 [])) = some lon ∧
        p = { osm_type := trim ((parseCsvLine line ',').getD 0 []),
              osm_id := trim ((parseCsvLine line ',').getD 1 []),
              name := trim ((parseCsvLine line ',').getD 2 []), lat := lat, lon := lon }) ∧
      ((processLine cfg st line).pts = st.pts ∨
        ∃ p, mapRow st.haveHeader st.idx (parseCsvLine line ',') = some p ∧
          (processLine cfg st line).pts = st.pts ++ [p]) ∧
      ((parseCsvLine line ',').length < 8 →
        (processLine cfg st line).pts = st.pts ∧
        (processLine cfg st line).pts.length = st.pts.length) := by
  have hmap : ∀ p, mapRow st.haveHeader st.idx (parseCsvLine line ',') = some p ↔
      mapPositionalRow (parseCsvLine line ',') = some p := by
    intro p
    simp [mapRow, hh]
  refine ⟨fun p => (hmap p).trans (mapPositionalRow_eq_some _ p), ?_, ?_⟩
  · rcases processLine_pts cfg st line with h | ⟨p, hm, _, h⟩
    · exact Or.inl h
    · exact Or.inr ⟨p, hm, h⟩
  · intro hshort
    have hsame : (processLine cfg st line).pts = st.pts := by
      rcases processLine_pts cfg st line with h | ⟨p, hm, _, _⟩
      · exact h
      · have := ((mapPositionalRow_eq_some _ p).1 ((hmap p).1 hm)).1
        omega
    exact ⟨hsame, by rw [hsame]⟩

/-- Witness of C9: without a header the 7-field row `way,1,Cafe,,,,10` is skipped. -/
theorem C9_positional_mapping_witness :
    (processLine {} {} "way,1,Cafe,,,,10".toList).pts = [] :=
  ((C9_positional_mapping {} {} "way,1,Cafe,,,,10".toList rfl).2.2 (by decide)).1

/-! ## Latitude and longitude -/

/-- The function `parseDouble` accepts a text exactly when `strtod` consumes at
least one character, and then gives the value `strtod` converted. -/
theorem parseDouble_eq_some (s : Str) (v : Dbl) :
    parseDouble s = some v ↔ (strtod s).2 ≠ 0 ∧ v = (strtod s).1 := by
  unfold parseDouble
  by_cases h : (strtod s).2 ≠ 0
  · simp only [h, if_true, Option.some.injEq, ne_eq, not_false_eq_true, true_and]
    exact eq_comm
  · simp [h]

/-- Counterexample to C10 as stated: the rows with latitude text `nan`, longitude
text `inf` and longitude text `1e999` pass the mapper and the filter stage with
a NaN latitude and infinite longitudes, and the latitude text `12abc`, which is
not a number, is accepted as 12. -/
theorem C10_counterexample :
    readPoints {} ["node,1,A,,,,nan,20".toList, "node,2,B,,,,10,inf".toList,
        "node,3,C,,,,10,1e999".toList, "node,4,D,,,,12abc,20".toList] =
      [{ osm_type := "node".toList, osm_id := "1".toList, name := "A".toList,
         lat := Dbl.nan, lon := Dbl.finite 20 },
       { osm_type := "node".toList, osm_id := "2".toList, name := "B".toList,
         lat := Dbl.finite 10, lon := Dbl.inf false },
       { osm_type := "node".toList, osm_id := "3".toList, name := "C".toList,
         lat := Dbl.finite 10, lon := Dbl.inf false },
       { osm_type := "node".toList, osm_id := "4".toList, name := "D".toList,
         lat := Dbl.finite 12, lon := Dbl.finite 20 }] ∧
    Dbl.isFinite Dbl.nan = false ∧ Dbl.isFinite (Dbl.inf false) = false := by
  decide!

/-! ## Header detection -/

/-- Once a header has been found, a row is mapped through the header map, and the
header map stays as it is. -/
theorem processLine_header_mode (cfg : Config) (st : ReadState) (line : Str)
    (hh : st.haveHeader = true) :
    processLine cfg st line =
      { st with pts := st.pts ++ mappedPoints cfg (mapHeaderRow st.idx) [line] } := by
  have hne : parseCsvLine line ',' ≠ [] := parseCsvLoop_ne_nil ',' line false [] []
  obtain ⟨hv, idx, pts⟩ := st
  simp only at hh
  subst hh
  unfold processLine mappedPoints
  by_cases h1 : line = []
  · simp [h1]
  · cases hm : mapHeaderRow idx (parseCsvLine line ',') with
    | none => simp [h1, hne, mapRow, hm]
    | some p =>
      by_cases hf : passesFilters cfg p = true
      · simp [h1, hne, mapRow, hm, hf, Option.filter]
      · simp [h1, hne, mapRow, hm, hf, Option.filter]

/-- Before a header has been found, a row that is not a header row is mapped with
the positional layout. -/
theorem processLine_positional (cfg : Config) (st : ReadState) (line : Str)
    (hh : st.haveHeader = false) (hl : isHeaderLine line = false) :
    processLine cfg st line =
      { st with pts := st.pts ++ mappedPoints cfg mapPositionalRow [line] } := by
  have hne : parseCsvLine line ',' ≠ [] := parseCsvLoop_ne_nil ',' line false [] []
  obtain ⟨hv, idx, pts⟩ := st
  simp only at hh
  subst hh
  unfold processLine mappedPoints
  by_cases h1 : line = []
  · simp [h1]
  · have h3 : looksLikeHeader (parseCsvLine line ',') = false := by
      simpa [isHeaderLine, h1] using hl
    cases hm : mapPositionalRow (parseCsvLine line ',') with
    | none => simp [h1, hne, h3, mapRow, hm]
    | some p =>
      by_cases hf : passesFilters cfg p = true
      · simp [h1, hne, h3, mapRow, hm, hf, Option.filter]
      · simp [h1, hne, h3, mapRow, hm, hf, Option.filter]

/-- Before a header has been found, a header row becomes the header: the header
map is built from it and no record is added. -/
theorem processLine_header_row (cfg : Config) (st : ReadState) (line : Str)
    (hh : st.haveHeader = false) (hl : isHeaderLine line = true) :
    processLine cfg st line =
      { st with haveHeader := true, idx := buildIdx st.idx 0 (parseCsvLine line ',') } := by
  have hne : parseCsvLine line ',' ≠ [] := parseCsvLoop_ne_nil ',' line false [] []
  simp only [isHeaderLine, Bool.and_eq_true, decide_eq_true_eq] at hl
  unfold processLine
  simp [hl.1, hne, hh, hl.2]

/-- The rows mapped under one mapper, one row after the other. -/
theorem mappedPoints_cons (cfg : Config) (mapper : List Str → Option Point) (line : Str)
    (rest : List Str) :
    mappedPoints cfg mapper (line :: rest) =
      mappedPoints cfg mapper [line] ++ mappedPoints cfg mapper rest := by
  unfold mappedPoints
  rw [← List.filterMap_append]
  rfl

/-- With a header, the reading loop maps every row through the header map. -/
theorem readLoop_header_mode (cfg : Config) (lines : List Str) (st : ReadState)
    (hh : st.haveHeader = true) :
    readLoop cfg lines st =
      { st with pts := st.pts ++ mappedPoints cfg (mapHeaderRow st.idx) lines } := by
  induction lines generalizing st with
  | nil => simp [readLoop, mappedPoints]
  | cons line rest ih =>
    have hstep := processLine_header_mode cfg st line hh
    have := ih (processLine cfg st line) (by rw [hstep]; exact hh)
    rw [readLoop, List.foldl_cons, ← readLoop, this, hstep, mappedPoints_cons cfg _ line rest]
    simp

/-- Without a header, the reading loop maps the rows before the first header row
with the positional layout, takes that row as the header, and maps the rows
after it through the header map built from it. -/
theorem readLoop_no_header (cfg : Config) (lines : List Str) (st : ReadState)
    (hh : st.haveHeader = false) :
    (readLoop cfg lines st).pts =
      st.pts ++ mappedPoints cfg mapPositionalRow (lines.takeWhile fun l => !isHeaderLine l) ++
        match lines.dropWhile fun l => !isHeaderLine l with
        | [] => []
        | h :: rest => mappedPoints cfg (mapHeaderRow (buildIdx st.idx 0 (parseCsvLine h ','))) rest := by
  induction lines generalizing st with
  | nil => simp [readLoop, mappedPoints]
  | cons line rest ih =>
    rw [readLoop, List.foldl_cons, ← readLoop]
    by_cases hl : isHeaderLine line = true
    · rw [processLine_header_row cfg st line hh hl, readLoop_header_mode cfg rest _ rfl]
      simp [hl, mappedPoints]
    · have hl2 : isHeaderLine line = false := by simpa using hl
      have hstep := processLine_positional cfg st line hh hl2
      rw [ih (processLine cfg st line) (by rw [hstep]; exact hh), hstep]
      simp [hl2, mappedPoints_cons cfg _ line (rest.takeWhile _)]

/-- C12 (as amended): header detection is tried on every non-empty row until one
row is detected as a header: the rows before the first header row are mapped
with the fixed 8-column positional layout, that row becomes the header, and the
rows after it are mapped through the header map built from it; for an input in
which no row is detected as a header, every row is mapped with the positional
layout. -/
theorem C12_header_detection (cfg : Config) (lines : List Str) :
    readPoints cfg lines =
        mappedPoints cfg mapPositionalRow (lines.takeWhile fun l => !isHeaderLine l) ++
          (match lines.dropWhile fun l => !isHeaderLine l with
          | [] => []
          | h :: rest =>
            mappedPoints cfg (mapHeaderRow (buildIdx [] 0 (parseCsvLine h ','))) rest) ∧
      ((∀ l ∈ lines, isHeaderLine l = false) →
        readPoints cfg lines = mappedPoints cfg mapPositionalRow lines) := by
  have h := readLoop_no_header cfg lines {} rfl
  have h1 : readPoints cfg lines =
      mappedPoints cfg mapPositionalRow (lines.takeWhile fun l => !isHeaderLine l) ++
        (match lines.dropWhile fun l => !isHeaderLine l with
        | [] => []
        | h :: rest =>
          mappedPoints cfg (mapHeaderRow (buildIdx [] 0 (parseCsvLine h ','))) rest) := by
    rw [readPoints, h]
    simp
  refine ⟨h1, fun hno => ?_⟩
  have ht : (lines.takeWhile fun l => !isHeaderLine l) = lines := by
    rw [List.takeWhile_eq_self_iff]
    intro l hl
    simp [hno l hl]
  have hd : (lines.dropWhile fun l => !isHeaderLine l) = [] := by
    rw [List.dropWhile_eq_nil_iff]
    intro l hl
    simp [hno l hl]
  rw [h1, ht, hd]
  simp

/-- Witness of C12: two rows, none of them a header row, are both mapped with the
positional layout. -/
theorem C12_header_detection_witness :
    readPoints {} ["way,1,A,,,,1,2".toList, "node,2,B,,,,3,4".toList] =
      mappedPoints {} mapPositionalRow ["way,1,A,,,,1,2".toList, "node,2,B,,,,3,4".toList] :=
  (C12_header_detection {} ["way,1,A,,,,1,2".toList, "node,2,B,,,,3,4".toList]).2
    (by decide)

/-- Counterexample to C12 as stated: the first non-empty row `way,1,A,,,,1,2` is
not detected as a header, yet the later row `::type,::id,name,::lat,::lon` is
taken as the header and the row `way,2,B,3,4` after it is mapped through the
header map and read, while the positional layout skips it for having fewer than
8 fields. -/
theorem C12_counterexample :
    isHeaderLine "way,1,A,,,,1,2".toList = false ∧
    readPoints {} ["way,1,A,,,,1,2".toList, "::type,::id,name,::lat,::lon".toList,
        "way,2,B,3,4".toList] =
      [{ osm_type := "way".toList, osm_id := "1".toList, name := "A".toList,
         lat := Dbl.finite 1, lon := Dbl.finite 2 },
       { osm_type := "way".toList, osm_id := "2".toList, name := "B".toList,
         lat := Dbl.finite 3, lon := Dbl.finite 4 }] ∧
    mappedPoints {} mapPositionalRow ["way,1,A,,,,1,2".toList,
        "::type,::id,name,::lat,::lon".toList, "way,2,B,3,4".toList] =
      [{ osm_type := "way".toList, osm_id := "1".toList, name := "A".toList,
         lat := Dbl.finite 1, lon := Dbl.finite 2 }] := by
  decide!

/-! ## Synonyms of the coordinate columns -/

/-- C11 (the code at the failing input): with the header `@type,@id,name,@lat,@lon`
the row `way,1,Cafe,10.0,20.0` is rejected, because latitude and longitude are
looked up under `::lat`, `lat`, `::lon` and `lon` only, and the run ends with
exit code 1; with the header `::type,::id,name,::lat,::lon` the same row is
accepted with the coordinates 10 and 20. -/
theorem C11_at_coordinates_rejected :
    readPoints {} ["@type,@id,name,@lat,@lon".toList, "way,1,Cafe,10.0,20.0".toList] = [] ∧
    run sampleNumerics ["prog".toList, "in".toList, "out".toList]
        (some ["@type,@id,name,@lat,@lon".toList, "way,1,Cafe,10.0,20.0".toList]) true =
      { exitCode := 1, output := none } ∧
    readPoints {} ["::type,::id,name,::lat,::lon".toList, "way,1,Cafe,10.0,20.0".toList] =
      [{ osm_type := "way".toList, osm_id := "1".toList, name := "Cafe".toList,
         lat := Dbl.finite 10, lon := Dbl.finite 20 }] := by
  decide!

/-! ## Exit codes of the argument handling -/

/-- The option loop ends at the first option that has a stop code, with that code,
and ends normally when no option has one. -/
theorem parseOptions_stop (opts : List Str) (cfg0 : Config) :
    match (optionScan opts).findSome? stopCode with
    | some code => parseOptions opts cfg0 = .error code
    | none => ∃ cfg, parseOptions opts cfg0 = .ok cfg := by
  generalize hn : opts.length = n
  induction n using Nat.strong_induction_on generalizing opts cfg0 with
  | _ n ih =>
    cases opts with
    | nil => simp [optionScan, parseOptions]
    | cons opt rest =>
      cases rest with
      | nil =>
        rw [parseOptions]
        split_ifs with h1 h2 h3 h4 h5 h6
        · subst h1; simp [optionScan, stopCode, parseOptions]
        · subst h2; simp [optionScan, stopCode]
        · subst h3; simp [optionScan, stopCode, parseOptions]
        · subst h4; simp [optionScan, stopCode, parseOptions]
        · subst h5; simp [optionScan, stopCode, parseOptions]
        · rcases h6 with h6 | h6 <;> subst h6 <;> simp [optionScan, stopCode]
        · have hs : ∀ w, stopCode (opt, w) = some 2 := by
            intro w
            unfold stopCode
            rw [if_neg (by rintro (h | h | h | h); exacts [h1 h, h3 h, h4 h, h5 h]),
              if_neg h2, if_neg h6]
          rw [optionScan, List.findSome?_cons, hs]
      | cons v rest2 =>
        simp only [List.length_cons] at hn
        have ih1 := fun c => ih (rest2.length + 1) (by omega) (v :: rest2) c rfl
        have ih2 := fun c => ih rest2.length (by omega) rest2 c rfl
        rw [parseOptions]
        split_ifs with h1 h2 h3 h4 h5 h6
        · subst h1
          have := ih1 { cfg0 with requireName := true }
          simpa [optionScan, stopCode] using this
        · subst h2
          have := ih2 { cfg0 with
            minNameLen := if atoi v < 0 then 0 else atoi v }
          simpa [optionScan, stopCode] using this
        · subst h3
          have := ih1 { cfg0 with dedupe := true }
          simpa [optionScan, stopCode] using this
        · subst h4
          have := ih1 { cfg0 with waysOnly := true, relationsOnly := false }
          simpa [optionScan, stopCode] using this
        · subst h5
          have := ih1 { cfg0 with relationsOnly := true, waysOnly := false }
          simpa [optionScan, stopCode] using this
        · rcases h6 with h6 | h6 <;> subst h6 <;> simp [optionScan, stopCode]
        · have hs : ∀ w, stopCode (opt, w) = some 2 := by
            intro w
            unfold stopCode
            rw [if_neg (by rintro (h | h | h | h); exacts [h1 h, h3 h, h4 h, h5 h]),
              if_neg h2, if_neg h6]
          rw [optionScan, if_neg h2, List.findSome?_cons, hs]

/-- The options of the option scan are the arguments read as options. -/
theorem optionScan_map_fst (opts : List Str) :
    (optionScan opts).map Prod.fst = optionTokens opts := by
  generalize hn : opts.length = n
  induction n using Nat.strong_induction_on generalizing opts with
  | _ n ih =>
    cases opts with
    | nil => rfl
    | cons opt rest =>
      cases rest with
      | nil => rfl
      | cons v rest2 =>
        simp only [List.length_cons] at hn
        rw [optionScan, optionTokens]
        split_ifs with h
        · rw [List.map_cons, ih rest2.length (by omega) rest2 rfl]
        · rw [List.map_cons, ih (rest2.length + 1) (by omega) (v :: rest2) rfl]

/-- C13 (as amended): with fewer than two positional arguments the run ends with
exit code 2; otherwise the arguments after the two paths are scanned from left
to right as options (the argument after a `--min-name-len` being its value and
not an option), and the scan ends with exit code 2 at the first unknown option
or `--min-name-len` without value, and with exit code 0 at the first `--help`
or `-h`, whichever comes first; in all these cases the outcome is the same
whatever the input file holds and whether or not the files can be opened, and
nothing is written. When no option stops the scan, the options are accepted. -/
theorem C13_exit_codes (nm : Numerics) (argv : List Str) (input : Option (List Str))
    (outputOpens : Bool) :
    (argv.length < 3 → run nm argv input outputOpens = { exitCode := 2, output := none }) ∧
    (∀ prog inPath outPath opts, argv = prog :: inPath :: outPath :: opts →
      (∀ code, (optionScan opts).findSome? stopCode = some code →
        (code = 0 ∨ code = 2) ∧
        run nm argv input outputOpens = { exitCode := code, output := none }) ∧
      ((optionScan opts).findSome? stopCode = none →
        ∃ cfg, parseArgs argv = .ok (inPath, outPath, cfg))) ∧
    (∀ t : Str × Option Str, stopCode t = some 0 ↔ (t.1 = "--help".toList ∨ t.1 = "-h".toList)) ∧
    (∀ t : Str × Option Str, stopCode t = some 2 ↔
      ((t.1 = "--min-name-len".toList ∧ t.2 = none) ∨
        (t.1 ≠ "--require-name".toList ∧ t.1 ≠ "--min-name-len".toList ∧
          t.1 ≠ "--dedupe".toList ∧ t.1 ≠ "--keep-ways-only".toList ∧
          t.1 ≠ "--keep-relations-only".toList ∧ t.1 ≠ "--help".toList ∧
          t.1 ≠ "-h".toList))) ∧
    (∀ opts, (optionScan opts).map Prod.fst = optionTokens opts) := by
  have hcodes : ∀ t : Str × Option Str, ∀ code, stopCode t = some code → code = 0 ∨ code = 2 := by
    intro t code h
    unfold stopCode at h
    split_ifs at h <;> simp at h <;> omega
  have h0 : ∀ t : Str × Option Str,
      stopCode t = some 0 ↔ (t.1 = "--help".toList ∨ t.1 = "-h".toList) := by
    intro t
    unfold stopCode
    constructor
    · intro h
      by_cases hk : t.1 = "--require-name".toList ∨ t.1 = "--dedupe".toList ∨
          t.1 = "--keep-ways-only".toList ∨ t.1 = "--keep-relations-only".toList
      · rw [if_pos hk] at h; simp at h
      · rw [if_neg hk] at h
        by_cases hm : t.1 = "--min-name-len".toList
        · rw [if_pos hm] at h
          by_cases hv : t.2 = none
          · rw [if_pos hv] at h; simp at h
          · rw [if_neg hv] at h; simp at h
        · rw [if_neg hm] at h
          by_cases hh : t.1 = "--help".toList ∨ t.1 = "-h".toList
          · exact hh
          · rw [if_neg hh] at h; simp at h
    · intro h
      have hk : ¬(t.1 = "--require-name".toList ∨ t.1 = "--dedupe".toList ∨
          t.1 = "--keep-ways-only".toList ∨ t.1 = "--keep-relations-only".toList) := by
        rcases h with h | h <;> rw [h] <;> decide
      have hm : ¬t.1 = "--min-name-len".toList := by
        rcases h with h | h <;> rw [h] <;> decide
      rw [if_neg hk, if_neg hm, if_pos h]
  have h2 : ∀ t : Str × Option Str, stopCode t = some 2 ↔
      ((t.1 = "--min-name-len".toList ∧ t.2 = none) ∨
        (t.1 ≠ "--require-name".toList ∧ t.1 ≠ "--min-name-len".toList ∧
          t.1 ≠ "--dedupe".toList ∧ t.1 ≠ "--keep-ways-only".toList ∧
          t.1 ≠ "--keep-relations-only".toList ∧ t.1 ≠ "--help".toList ∧
          t.1 ≠ "-h".toList)) := by
    intro t
    unfold stopCode
    constructor
    · intro h
      by_cases hk : t.1 = "--require-name".toList ∨ t.1 = "--dedupe".toList ∨
          t.1 = "--keep-ways-only".toList ∨ t.1 = "--keep-relations-only".toList
      · rw [if_pos hk] at h; simp at h
      · rw [if_neg hk] at h
        by_cases hm : t.1 = "--min-name-len".toList
        · rw [if_pos hm] at h
          by_cases hv : t.2 = none
          · exact Or.inl ⟨hm, hv⟩
          · rw [if_neg hv] at h; simp at h
        · rw [if_neg hm] at h
          by_cases hh : t.1 = "--help".toList ∨ t.1 = "-h".toList
          · rw [if_pos hh] at h; simp at h
          · exact Or.inr ⟨fun e => hk (Or.inl e), hm, fun e => hk (Or.inr (Or.inl e)),
              fun e => hk (Or.inr (Or.inr (Or.inl e))),
              fun e => hk (Or.inr (Or.inr (Or.inr e))),
              fun e => hh (Or.inl e), fun e => hh (Or.inr e)⟩
    · rintro (⟨hm, hv⟩ | ⟨a, b, c, d, e, f, g⟩)
      · have hk : ¬(t.1 = "--require-name".toList ∨ t.1 = "--dedupe".toList ∨
            t.1 = "--keep-ways-only".toList ∨ t.1 = "--keep-relations-only".toList) := by
          rw [hm]; decide
        rw [if_neg hk, if_pos hm, if_pos hv]
      · rw [if_neg (by rintro (h | h | h | h); exacts [a h, c h, d h, e h]), if_neg b,
          if_neg (by rintro (h | h); exacts [f h, g h])]
  refine ⟨?_, ?_, h0, h2, optionScan_map_fst⟩
  · intro hlen
    match argv, hlen with
    | [], _ => rfl
    | [_], _ => rfl
    | [_, _], _ => rfl
  · intro prog inPath outPath opts hargv
    subst hargv
    have hstop := parseOptions_stop opts {}
    refine ⟨fun code hc => ?_, fun hc => ?_⟩
    · rw [hc] at hstop
      obtain ⟨t, _, ht⟩ := List.exists_of_findSome?_eq_some hc
      refine ⟨hcodes t code ht, ?_⟩
      simp [run, parseArgs, hstop]
    · rw [hc] at hstop
      obtain ⟨cfg, hcfg⟩ := hstop
      exact ⟨cfg, by simp [parseArgs, hcfg]⟩

/-- Witness of C13: `prog in out --require-name -h --bogus` ends with exit code 0 at
`-h`, before the unknown option, whatever the files are. -/
theorem C13_exit_codes_witness :
    run sampleNumerics ["prog".toList, "in".toList, "out".toList, "--require-name".toList,
        "-h".toList, "--bogus".toList] none false = { exitCode := 0, output := none } :=
  (((C13_exit_codes sampleNumerics ["prog".toList, "in".toList, "out".toList,
    "--require-name".toList, "-h".toList, "--bogus".toList] none false).2.1
    "prog".toList "in".toList "out".toList
    ["--require-name".toList, "-h".toList, "--bogus".toList] rfl).1 0 (by decide)).2

/-- Counterexample to C13 as stated: in `prog in out --min-name-len --help` the
first `--help` is taken as the value of `--min-name-len`; the options are
accepted and the run goes on to the files: with an input file that cannot be
opened it ends with exit code 1, and with a readable one it writes the output. -/
theorem C13_counterexample :
    parseArgs ["prog".toList, "in".toList, "out".toList, "--min-name-len".toList,
        "--help".toList] = .ok ("in".toList, "out".toList, {}) ∧
    run sampleNumerics ["prog".toList, "in".toList, "out".toList, "--min-name-len".toList,
        "--help".toList] none true = { exitCode := 1, output := none } ∧
    run sampleNumerics ["prog".toList, "in".toList, "out".toList, "--min-name-len".toList,
        "--help".toList] (some ["way,1,A,,,,1,2".toList]) true =
      { exitCode := 0,
        output := some [headerLine, "way:1,A,num,num,num,num\n".toList] } := by
  decide!

/-! ## The empty-result check -/

/-- The output loop always writes the first record. -/
theorem outputRows_cons (nm : Numerics) (origin : Dbl × Dbl) (dedupe : Bool) (p : Point)
    (rest : List Point) :
    ∃ rows, outputRows nm origin dedupe (p :: rest) = writeRow nm origin p :: rows := by
  cases dedupe <;> simp [outputRows, writtenPoints]

/-- C14: for a readable input and options that parse, the run ends with exit code
1 whether or not the output file can be opened, with nothing written, if and
only if no record survives the mapper and the filter stage; when at least one
record survives and the output file can be opened, the run ends with exit code
0 and writes the header line followed by at least one data row. -/
theorem C14_empty_result (nm : Numerics) (argv : List Str) (inPath outPath : Str)
    (cfg : Config) (lines : List Str) (hargs : parseArgs argv = .ok (inPath, outPath, cfg)) :
    ((∀ outputOpens, run nm argv (some lines) outputOpens = { exitCode := 1, output := none }) ↔
        readPoints cfg lines = []) ∧
      ((run nm argv (some lines) true).exitCode = 1 ↔ readPoints cfg lines = []) ∧
      (readPoints cfg lines ≠ [] →
        ∃ row rows,
          outputRows nm (nm.centroid (readPoints cfg lines)) cfg.dedupe (readPoints cfg lines) =
            row :: rows ∧
          run nm argv (some lines) true =
            { exitCode := 0, output := some (headerLine :: row :: rows) }) := by
  have hempty : readPoints cfg lines = [] →
      ∀ outputOpens, run nm argv (some lines) outputOpens = { exitCode := 1, output := none } := by
    intro h oo
    simp [run, hargs, h]
  have hsome : readPoints cfg lines ≠ [] →
      ∃ row rows,
        outputRows nm (nm.centroid (readPoints cfg lines)) cfg.dedupe (readPoints cfg lines) =
          row :: rows ∧
        run nm argv (some lines) true =
          { exitCode := 0, output := some (headerLine :: row :: rows) } := by
    intro h
    cases hp : readPoints cfg lines with
    | nil => exact absurd hp h
    | cons p rest =>
      obtain ⟨rows, hrows⟩ := outputRows_cons nm (nm.centroid (p :: rest)) cfg.dedupe p rest
      refine ⟨_, rows, hrows, ?_⟩
      simp [run, hargs, hp, hrows]
  have hcode : (run nm argv (some lines) true).exitCode = 1 → readPoints cfg lines = [] := by
    intro h
    by_contra hne
    obtain ⟨row, rows, _, hrun⟩ := hsome hne
    rw [hrun] at h
    exact absurd h (by simp)
  refine ⟨⟨fun h => hcode (by rw [h true]), hempty⟩, ⟨hcode, fun h => by rw [hempty h true]⟩, hsome⟩

/-- Witness of C14: without options, an input whose only row has no coordinates
ends the run with exit code 1 and nothing written. -/
theorem C14_empty_result_witness :
    run sampleNumerics ["prog".toList, "in".toList, "out".toList]
      (some ["way,1,Cafe,,,,,".toList]) true = { exitCode := 1, output := none } :=
  ((C14_empty_result sampleNumerics ["prog".toList, "in".toList, "out".toList] "in".toList
    "out".toList {} ["way,1,Cafe,,,,,".toList] rfl).1.2 (by decide)) true

/-! ## Deduplication by type and identifier -/

/-- C16 (the code at the failing input): the rows `a:b,c,n,,,,1,2` and
`a,b:c,m,,,,1,2` give two records that differ in type and in identifier but have
the same identity key `a:b:c`, and the output loop drops the second one as a
duplicate of the first. -/
theorem C16_key_collision :
    readPoints {} ["a:b,c,n,,,,1,2".toList, "a,b:c,m,,,,1,2".toList] =
      [{ osm_type := "a:b".toList, osm_id := "c".toList, name := "n".toList,
         lat := Dbl.finite 1, lon := Dbl.finite 2 },
       { osm_type := "a".toList, osm_id := "b:c".toList, name := "m".toList,
         lat := Dbl.finite 1, lon := Dbl.finite 2 }] ∧
    "a:b".toList ≠ "a".toList ∧ "c".toList ≠ "b:c".toList ∧
    writtenPoints true
        (readPoints {} ["a:b,c,n,,,,1,2".toList, "a,b:c,m,,,,1,2".toList]) [] =
      [{ osm_type := "a:b".toList, osm_id := "c".toList, name := "n".toList,
         lat := Dbl.finite 1, lon := Dbl.finite 2 }] := by
  decide!

/-! ## Centroid and projection in exact arithmetic -/

/-- The two running sums of the centroid loop are the sums of the latitudes and of
the longitudes. -/
theorem foldl_pair_sum {K : Type} [Field K] (coords : List (K × K)) (acc : K × K) :
    coords.foldl (fun acc c => (acc.1 + c.1, acc.2 + c.2)) acc =
      (acc.1 + (coords.map Prod.fst).sum, acc.2 + (coords.map Prod.snd).sum) := by
  induction coords generalizing acc with
  | nil => simp
  | cons c rest ih =>
    rw [List.foldl_cons, ih]
    simp [add_assoc]

/-- The origin is the arithmetic mean of the latitudes and of the longitudes. -/
theorem centroidExact_eq_mean {K : Type} [Field K] (coords : List (K × K)) :
    centroidExact coords =
      ((coords.map Prod.fst).sum / (coords.length : K),
       (coords.map Prod.snd).sum / (coords.length : K)) := by
  simp [centroidExact, foldl_pair_sum]

/-- The centroid of records that all have the same coordinates is these
coordinates. -/
theorem centroidExact_const {K : Type} [Field K] [CharZero K] (coords : List (K × K))
    (c0 : K × K) (hne : coords ≠ []) (hall : ∀ c ∈ coords, c = c0) :
    centroidExact coords = c0 := by
  have hrep : coords = List.replicate coords.length c0 := List.eq_replicate_iff.2 ⟨rfl, hall⟩
  have hlen : (coords.length : K) ≠ 0 := by
    have : coords.length ≠ 0 := fun h => hne (List.length_eq_zero.1 h)
    exact_mod_cast this
  rw [centroidExact_eq_mean]
  have h1 : (coords.map Prod.fst).sum = (coords.length : K) * c0.1 := by
    conv_lhs => rw [hrep]
    simp
  have h2 : (coords.map Prod.snd).sum = (coords.length : K) * c0.2 := by
    conv_lhs => rw [hrep]
    simp
  rw [h1, h2]
  ext
  · show (coords.length : K) * c0.1 / (coords.length : K) = c0.1
    field_simp
  · show (coords.length : K) * c0.2 / (coords.length : K) = c0.2
    field_simp

/-- A record at the origin is projected to `(0, 0)`. -/
theorem projectExact_origin {K : Type} [Field K] (cosf : K → K) (origin : K × K) :
    projectExact cosf origin origin = (0, 0) := by
  simp [projectExact, rad]

/-- C15: in exact arithmetic (a field of characteristic 0, whatever the cosine
is), the projection origin is the arithmetic mean of the latitudes and of the
longitudes of all the records that passed filtering, the records later dropped
as duplicates included; every written record whose coordinates equal the origin
gets `x_m = 0` and `y_m = 0`; and when all the filtered records have the same
coordinates, every row written has `x_m = 0` and `y_m = 0`. -/
theorem C15_centroid_projection {K : Type} [Field K] [CharZero K] (cosf : K → K)
    (coord : Point → K × K) (dedupe : Bool) (pts : List Point) :
    centroidExact (pts.map coord) =
        ((pts.map fun p => (coord p).1).sum / (pts.length : K),
         (pts.map fun p => (coord p).2).sum / (pts.length : K)) ∧
      exactXY cosf coord dedupe pts =
        (writtenPoints dedupe pts []).map
          (fun p => projectExact cosf (centroidExact (pts.map coord)) (coord p)) ∧
      (∀ p ∈ writtenPoints dedupe pts [], coord p = centroidExact (pts.map coord) →
        projectExact cosf (centroidExact (pts.map coord)) (coord p) = (0, 0)) ∧
      (∀ c0, (∀ p ∈ pts, coord p = c0) → ∀ xy ∈ exactXY cosf coord dedupe pts, xy = (0, 0)) := by
  refine ⟨?_, rfl, ?_, ?_⟩
  · rw [centroidExact_eq_mean]
    simp [Function.comp_def]
  · intro p _ hp
    rw [hp]
    exact projectExact_origin cosf _
  · intro c0 hall xy hxy
    simp only [exactXY, List.mem_map] at hxy
    obtain ⟨p, hp, rfl⟩ := hxy
    have hmem : p ∈ pts := writtenPoints_subset dedupe pts [] p hp
    have hne : pts.map coord ≠ [] := by
      intro h
      rw [List.map_eq_nil_iff] at h
      rw [h] at hmem
      exact absurd hmem (List.not_mem_nil _)
    have hc : centroidExact (pts.map coord) = c0 := by
      apply centroidExact_const _ _ hne
      intro c hcm
      obtain ⟨q, hq, rfl⟩ := List.mem_map.1 hcm
      exact hall q hq
    rw [hc, hall p hmem]
    exact projectExact_origin cosf c0

/-- Witness of C15: two records at latitude 10 and longitude 20 are both written
with `x_m = 0` and `y_m = 0`. -/
theorem C15_centroid_projection_witness :
    (exactXY (fun _ => (1 : ℚ)) ratCoord true
      [{ osm_type := "way".toList, osm_id := "1".toList, name := "A".toList,
         lat := Dbl.finite 10, lon := Dbl.finite 20 },
       { osm_type := "way".toList, osm_id := "2".toList, name := "B".toList,
         lat := Dbl.finite 10, lon := Dbl.finite 20 }]).all
      (fun xy => decide (xy = (0, 0))) = true :=
  List.all_eq_true.2 fun xy hxy => decide_eq_true
    ((C15_centroid_projection (fun _ => (1 : ℚ)) ratCoord true
      [{ osm_type := "way".toList, osm_id := "1".toList, name := "A".toList,
         lat := Dbl.finite 10, lon := Dbl.finite 20 },
       { osm_type := "way".toList, osm_id := "2".toList, name := "B".toList,
         lat := Dbl.finite 10, lon := Dbl.finite 20 }]).2.2.2 (10, 20) (by decide!) xy hxy)

/-- A record dropped as a duplicate still counts for the origin: of two records
with the key `way:1`, at `(0, 0)` and at `(2, 2)`, only the first is written,
and the origin is `(1, 1)`. -/
theorem centroidExact_counts_duplicates :
    writtenPoints true
        [{ osm_type := "way".toList, osm_id := "1".toList, name := "A".toList,
           lat := Dbl.finite 0, lon := Dbl.finite 0 },
         { osm_type := "way".toList, osm_id := "1".toList, name := "B".toList,
           lat := Dbl.finite 2, lon := Dbl.finite 2 }] [] =
      [{ osm_type := "way".toList, osm_id := "1".toList, name := "A".toList,
         lat := Dbl.finite 0, lon := Dbl.finite 0 }] ∧
    centroidExact
        ([{ osm_type := "way".toList, osm_id := "1".toList, name := "A".toList,
            lat := Dbl.finite 0, lon := Dbl.finite 0 },
          { osm_type := "way".toList, osm_id := "1".toList, name := "B".toList,
            lat := Dbl.finite 2, lon := Dbl.finite 2 }].map ratCoord) = (1, 1) := by
  decide!

/-! ## Lines without quotes -/

/-- Joining fields of which the last is given apart: every earlier field is
followed by the separator. -/
theorem intercalate_append_last (sep : Char) (out : List Str) (a : Str) :
    [sep].intercalate (out ++ [a]) = out.flatMap (fun f => f ++ [sep]) ++ a := by
  induction out with
  | nil => simp [List.intercalate]
  | cons o os ih =>
    cases os with
    | nil => simp [List.intercalate]
    | cons o2 os2 =>
      have hstep : [sep].intercalate (o :: (o2 :: os2 ++ [a])) =
          o ++ sep :: [sep].intercalate (o2 :: os2 ++ [a]) := by
        simp [List.intercalate]
      rw [List.cons_append, hstep, ih]
      simp

/-- On a line without quotes the tokenizer adds one field per separator. -/
theorem parseCsvLoop_length (sep : Char) (line : List Char) (cur : Str) (out : List Str)
    (hq : '"' ∉ line) :
    (parseCsvLoop sep line false cur out).length = out.length + line.count sep + 1 := by
  induction line generalizing cur out with
  | nil => simp [parseCsvLoop]
  | cons c rest ih =>
    have hc : c ≠ '"' := fun h => hq (by simp [h])
    have hq2 : '"' ∉ rest := fun h => hq (List.mem_cons_of_mem _ h)
    rw [parseCsvLoop, if_neg hc]
    by_cases hs : c = sep
    · rw [if_pos hs, ih _ _ hq2, hs]
      simp
      omega
    · have hs2 : ¬(c == sep) = true := by simpa using hs
      rw [if_neg hs, List.count_cons]
      split_ifs <;> rw [ih _ _ hq2] <;> simp [hs]

/-- On a line without quotes, no field holds the separator, a carriage return or a
newline, provided the fields found so far and the current one hold none. -/
theorem parseCsvLoop_fields_clean (sep : Char) (line : List Char) (cur : Str)
    (out : List Str) (hq : '"' ∉ line)
    (hout : ∀ f ∈ out, sep ∉ f ∧ '\r' ∉ f ∧ '\n' ∉ f)
    (hcur : sep ∉ cur ∧ '\r' ∉ cur ∧ '\n' ∉ cur) :
    ∀ f ∈ parseCsvLoop sep line false cur out, sep ∉ f ∧ '\r' ∉ f ∧ '\n' ∉ f := by
  induction line generalizing cur out with
  | nil =>
    intro f hf
    simp only [parseCsvLoop, List.mem_append, List.mem_singleton] at hf
    rcases hf with hf | hf
    · exact hout f hf
    · exact hf ▸ hcur
  | cons c rest ih =>
    have hc : c ≠ '"' := fun h => hq (by simp [h])
    have hq2 : '"' ∉ rest := fun h => hq (List.mem_cons_of_mem _ h)
    rw [parseCsvLoop, if_neg hc]
    by_cases hs : c = sep
    · rw [if_pos hs]
      apply ih _ _ hq2
      · intro f hf
        rcases List.mem_append.1 hf with hf | hf
        · exact hout f hf
        · have : f = cur := by simpa using hf
          exact this ▸ hcur
      · simp
    · rw [if_neg hs]
      by_cases hle : c = '\r' ∨ c = '\n'
      · rw [if_pos hle]
        exact ih _ _ hq2 hout hcur
      · rw [if_neg hle]
        apply ih _ _ hq2 hout
        have hle2 := not_or.1 hle
        refine ⟨?_, ?_, ?_⟩
        · intro h
          rcases List.mem_append.1 h with h | h
          · exact hcur.1 h
          · exact hs (List.mem_singleton.1 h).symm
        · intro h
          rcases List.mem_append.1 h with h | h
          · exact hcur.2.1 h
          · exact hle2.1 (List.mem_singleton.1 h).symm
        · intro h
          rcases List.mem_append.1 h with h | h
          · exact hcur.2.2 h
          · exact hle2.2 (List.mem_singleton.1 h).symm

/-- On a line without quotes, joining the fields with the separator gives the
fields found so far, the current field and the rest of the line without its
carriage returns and newlines. -/
theorem parseCsvLoop_intercalate (sep : Char) (hsep : sep ≠ '\r' ∧ sep ≠ '\n')
    (line : List Char) (cur : Str) (out : List Str) (hq : '"' ∉ line) :
    [sep].intercalate (parseCsvLoop sep line false cur out) =
      out.flatMap (fun f => f ++ [sep]) ++ cur ++ dropLineEnds line := by
  induction line generalizing cur out with
  | nil => simp [parseCsvLoop, intercalate_append_last, dropLineEnds]
  | cons c rest ih =>
    have hc : c ≠ '"' := fun h => hq (by simp [h])
    have hq2 : '"' ∉ rest := fun h => hq (List.mem_cons_of_mem _ h)
    rw [parseCsvLoop, if_neg hc]
    by_cases hs : c = sep
    · rw [if_pos hs, ih _ _ hq2, hs]
      simp [dropLineEnds, List.filter_cons, hsep.1, hsep.2]
    · rw [if_neg hs]
      by_cases hle : c = '\r' ∨ c = '\n'
      · rw [if_pos hle, ih _ _ hq2]
        rcases hle with h | h <;> simp [dropLineEnds, h]
      · rw [if_neg hle, ih _ _ hq2]
        have hle2 : ¬c = '\r' ∧ ¬c = '\n' := not_or.1 hle
        simp [dropLineEnds, List.filter_cons, hle2]

/-- A line without quotes that ends right after a separator gives an empty last
field. -/
theorem parseCsvLoop_trailing (sep : Char) (hsep : sep ≠ '"') (pre : List Char) (cur : Str)
    (out : List Str) (hq : '"' ∉ pre) :
    (parseCsvLoop sep (pre ++ [sep]) false cur out).getLast? = some [] := by
  induction pre generalizing cur out with
  | nil => simp [parseCsvLoop, hsep]
  | cons c rest ih =>
    have hc : c ≠ '"' := fun h => hq (by simp [h])
    have hq2 : '"' ∉ rest := fun h => hq (List.mem_cons_of_mem _ h)
    rw [List.cons_append, parseCsvLoop, if_neg hc]
    split_ifs <;> exact ih _ _ hq2

/-- C17: for a line without double quote and a separator other than double quote,
carriage return and newline, `parseCsvLine` returns exactly one field more than
the line has separators, so the result is never empty and a line that ends
right after a separator gives an empty last field; no field holds the
separator, a carriage return or a newline, and joining the fields with the
separator gives the line with its carriage returns and newlines removed. -/
theorem C17_unquoted_line (line : Str) (sep : Char) (hq : '"' ∉ line)
    (hsep : sep ≠ '"' ∧ sep ≠ '\r' ∧ sep ≠ '\n') :
    (parseCsvLine line sep).length = line.count sep + 1 ∧
      parseCsvLine line sep ≠ [] ∧
      (∀ pre, line = pre ++ [sep] → (parseCsvLine line sep).getLast? = some []) ∧
      (∀ f ∈ parseCsvLine line sep, sep ∉ f ∧ '\r' ∉ f ∧ '\n' ∉ f) ∧
      [sep].intercalate (parseCsvLine line sep) = dropLineEnds line := by
  refine ⟨?_, parseCsvLoop_ne_nil sep line false [] [], ?_, ?_, ?_⟩
  · rw [parseCsvLine, parseCsvLoop_length sep line [] [] hq]
    simp
  · intro pre hpre
    subst hpre
    have hq2 : '"' ∉ pre := fun h => hq (List.mem_append_left _ h)
    exact parseCsvLoop_trailing sep hsep.1 pre [] [] hq2
  · exact parseCsvLoop_fields_clean sep line [] [] hq (by simp) (by simp)
  · rw [parseCsvLine, parseCsvLoop_intercalate sep hsep.2 line [] [] hq]
    simp

/-- Witness of C17: the line `a,b<CR>,` has two commas and gives the three fields
`a`, `b` and the empty field. -/
theorem C17_unquoted_line_witness :
    parseCsvLine "a,b\r,".toList ',' = ["a".toList, "b".toList, []] ∧
      (parseCsvLine "a,b\r,".toList ',').length = "a,b\r,".toList.count ',' + 1 :=
  ⟨by decide, (C17_unquoted_line "a,b\r,".toList ',' (by decide) (by decide)).1⟩

/-! ## The header test -/

/-- The test `hay.find(needle) != npos` holds exactly when the needle is a
contiguous part of the hay. -/
theorem contains_iff (hay needle : Str) : contains hay needle = true ↔ needle <:+: hay := by
  unfold contains
  rw [List.any_eq_true, List.infix_iff_prefix_suffix]
  constructor
  · rintro ⟨t, ht, hp⟩
    exact ⟨t, List.isPrefixOf_iff_prefix.1 hp, (List.mem_tails _ _).1 ht⟩
  · rintro ⟨t, hp, ht⟩
    exact ⟨t, (List.mem_tails _ _).2 ht, List.isPrefixOf_iff_prefix.2 hp⟩

/-- C19: `looksLikeHeader` returns true if and only if the row is non-empty and its
first column, lower-cased, contains `type`; the checks for `@type` and for
equality with `::type` never change the result. -/
theorem C19_looksLikeHeader (cols : List Str) :
    (looksLikeHeader cols = true ↔
      ∃ c rest, cols = c :: rest ∧ "type".toList <:+: lowerStr c) ∧
    looksLikeHeader cols =
      (match cols with
      | [] => false
      | c :: _ => contains (lowerStr c) "type".toList) := by
  have hat : ∀ s : Str, contains s "@type".toList = true → contains s "type".toList = true := by
    intro s h
    rw [contains_iff] at h ⊢
    exact List.IsInfix.trans ⟨['@'], [], rfl⟩ h
  have hcc : ∀ s : Str, (s == "::type".toList) = true → contains s "type".toList = true := by
    intro s h
    have hs : s = "::type".toList := by simpa using h
    rw [hs]
    decide
  have hsame : looksLikeHeader cols =
      (match cols with
      | [] => false
      | c :: _ => contains (lowerStr c) "type".toList) := by
    cases cols with
    | nil => rfl
    | cons c rest =>
      show (contains (lowerStr c) "type".toList || contains (lowerStr c) "@type".toList ||
        lowerStr c == "::type".toList) = contains (lowerStr c) "type".toList
      cases h1 : contains (lowerStr c) "type".toList with
      | true => simp
      | false =>
        cases h2 : contains (lowerStr c) "@type".toList with
        | true => rw [hat _ h2] at h1; exact absurd h1 (by decide)
        | false =>
          cases h3 : (lowerStr c == "::type".toList) with
          | true => rw [hcc _ h3] at h1; exact absurd h1 (by decide)
          | false => rfl
  refine ⟨?_, hsame⟩
  rw [hsame]
  cases cols with
  | nil => simp
  | cons c rest =>
    show contains (lowerStr c) "type".toList = true ↔ _
    rw [contains_iff]
    constructor
    · intro h; exact ⟨c, rest, rfl, h⟩
    · rintro ⟨c2, rest2, heq, h⟩
      have : c = c2 := (List.cons.inj heq).1
      rw [this]; exact h

/-! ## Column resolution in header mode -/

/-- The header branch of the row mapper uses the resolved type and identifier. -/
theorem mapHeaderRow_eq (idx : HeaderMap) (cols : List Str) :
    ∃ name slat slon,
      mapHeaderRow idx cols = withCoords (headerType idx cols) (headerId idx cols) name slat slon :=
  ⟨_, _, _, rfl⟩

/-- After the header loop, a name is bound to the rightmost column of the header
row that has it, and otherwise to what it was bound to before. -/
theorem idxFind_buildIdx (idx : HeaderMap) (c : Nat) (header : List Str) (name : Str) :
    idxFind (buildIdx idx c header) name =
      match rightmostFrom c header name with
      | some i => some i
      | none => idxFind idx name := by
  induction header generalizing idx c with
  | nil => rfl
  | cons col rest ih =>
    rw [buildIdx, ih, rightmostFrom]
    cases rightmostFrom (c + 1) rest name with
    | some i => rfl
    | none =>
      by_cases h : lowerStr (trim col) = name
      · simp [idxFind, h]
      · simp [idxFind, h]

/-- Trimming the empty string gives the empty string. -/
theorem trim_nil : trim [] = [] := rfl

/-- With the header map built from a header row, the lambda `get` returns the
trimmed cell of the rightmost column with the given (lower-case) name. -/
theorem get_buildIdx (header row : List Str) (name : Str) (hlow : lowerStr name = name) :
    get (buildIdx [] 0 header) row name = cellOf header row name := by
  unfold get cellOf
  rw [hlow, idxFind_buildIdx]
  cases rightmostFrom 0 header name with
  | none => rfl
  | some i =>
    by_cases hi : i < row.length
    · simp [hi, List.getD_eq_getElem?_getD, List.getElem?_eq_getElem hi]
    · have hge : row.length ≤ i := by omega
      simp [hi, List.getD_eq_getElem?_getD, List.getElem?_eq_none hge, trim_nil]

/-- No column of the header, from `c` on, has the name exactly when none is found. -/
theorem rightmostFrom_eq_none (c : Nat) (header : List Str) (name : Str) :
    rightmostFrom c header name = none ↔
      ∀ (k : Nat) (col : Str), header[k]? = some col → lowerStr (trim col) ≠ name := by
  induction header generalizing c with
  | nil => simp [rightmostFrom]
  | cons col rest ih =>
    rw [rightmostFrom]
    constructor
    · intro h k col2 hk
      cases hr : rightmostFrom (c + 1) rest name with
      | some i => rw [hr] at h; simp at h
      | none =>
        rw [hr] at h
        cases k with
        | zero =>
          have : col = col2 := by simpa using hk
          subst this
          intro hm
          simp [hm] at h
        | succ k => exact (ih (c + 1)).1 hr k col2 (by simpa using hk)
    · intro h
      have hr : rightmostFrom (c + 1) rest name = none :=
        (ih (c + 1)).2 fun k col2 hk => h (k + 1) col2 (by simpa using hk)
      have h0 : lowerStr (trim col) ≠ name := h 0 col (by simp)
      simp [hr, h0]

/-- The column found is the rightmost one with the name: it has the name, and no
column to its right has it. -/
theorem rightmostFrom_eq_some (c : Nat) (header : List Str) (name : Str) (i : Nat) :
    rightmostFrom c header name = some i ↔
      ∃ k : Nat, i = c + k ∧ (∃ col : Str, header[k]? = some col ∧ lowerStr (trim col) = name) ∧
        ∀ (k2 : Nat) (col2 : Str), k < k2 → header[k2]? = some col2 →
          lowerStr (trim col2) ≠ name := by
  induction header generalizing c i with
  | nil => simp [rightmostFrom]
  | cons col rest ih =>
    rw [rightmostFrom]
    cases hr : rightmostFrom (c + 1) rest name with
    | some j =>
      obtain ⟨k, hjk, ⟨colk, hcolk, hmk⟩, hmax⟩ := (ih (c + 1) j).1 hr
      constructor
      · intro h
        have hij : j = i := by simpa using h
        subst hij
        refine ⟨k + 1, by omega, ⟨colk, by simpa using hcolk, hmk⟩, ?_⟩
        intro k2 col2 hlt hk2
        cases k2 with
        | zero => omega
        | succ k2 => exact hmax k2 col2 (by omega) (by simpa using hk2)
      · rintro ⟨k3, hik, ⟨col3, hcol3, hm3⟩, hmax3⟩
        have hk3 : k3 = k + 1 := by
          rcases Nat.lt_trichotomy k3 (k + 1) with hlt | heq | hgt
          · exact absurd hmk (hmax3 (k + 1) colk hlt (by simpa using hcolk))
          · exact heq
          · cases k3 with
            | zero => omega
            | succ k3 =>
              exact absurd hm3 (hmax k3 col3 (by omega) (by simpa using hcol3))
        simp only [Option.some.injEq]
        omega
    | none =>
      have hnone := (rightmostFrom_eq_none (c + 1) rest name).1 hr
      by_cases hm : lowerStr (trim col) = name
      · simp only [hm, if_true, Option.some.injEq]
        constructor
        · intro h
          refine ⟨0, by omega, ⟨col, by simp, hm⟩, ?_⟩
          intro k2 col2 hlt hk2
          cases k2 with
          | zero => omega
          | succ k2 => exact hnone k2 col2 (by simpa using hk2)
        · rintro ⟨k3, hik, ⟨col3, hcol3, hm3⟩, _⟩
          cases k3 with
          | zero => omega
          | succ k3 => exact absurd hm3 (hnone k3 col3 (by simpa using hcol3))
      · simp only [hm, if_false]
        constructor
        · intro h; simp at h
        · rintro ⟨k3, _, ⟨col3, hcol3, hm3⟩, _⟩
          cases k3 with
          | zero =>
            have : col = col3 := by simpa using hcol3
            exact absurd (this ▸ hm3) hm
          | succ k3 => exact absurd hm3 (hnone k3 col3 (by simpa using hcol3))

/-- The chain of two `if (x.empty()) x = ...` gives the first non-empty of the three
candidates. -/
theorem synonym_chain (a b c : Str) :
    (if (if a = [] then b else a) = [] then c else (if a = [] then b else a)) =
      firstNonEmpty [a, b, c] := by
  by_cases h1 : a = []
  · by_cases h2 : b = []
    · by_cases h3 : c = [] <;> simp [firstNonEmpty, h1, h2, h3]
    · simp [firstNonEmpty, h1, h2]
  · simp [firstNonEmpty, h1]

/-- C18: in header mode, for every header row and every data row, the resolved
type is the trimmed cell of the first of the columns named `::type`, `@type`,
`type` (header names trimmed and lower-cased) whose trimmed cell in the row is
non-empty, and is empty if there is none, so that a column whose cell is empty
in the row is passed over for the next synonym; the identifier is resolved the
same way from `::id`, `@id`, `id`; and of several header columns with the same
normalized name the rightmost one is used. -/
theorem C18_header_resolution (header row : List Str) :
    headerType (buildIdx [] 0 header) row =
        firstNonEmpty [cellOf header row "::type".toList, cellOf header row "@type".toList,
          cellOf header row "type".toList] ∧
      headerId (buildIdx [] 0 header) row =
        firstNonEmpty [cellOf header row "::id".toList, cellOf header row "@id".toList,
          cellOf header row "id".toList] ∧
      (∀ p, mapHeaderRow (buildIdx [] 0 header) row = some p →
        p.osm_type = headerType (buildIdx [] 0 header) row ∧
        p.osm_id = headerId (buildIdx [] 0 header) row) ∧
      (∀ (name : Str) (i : Nat), rightmostFrom 0 header name = some i ↔
        (∃ col : Str, header[i]? = some col ∧ lowerStr (trim col) = name) ∧
        ∀ (k : Nat) (col : Str), i < k → header[k]? = some col → lowerStr (trim col) ≠ name) ∧
      (∀ name : Str, rightmostFrom 0 header name = none ↔
        ∀ (k : Nat) (col : Str), header[k]? = some col → lowerStr (trim col) ≠ name) := by
  have g1 := get_buildIdx header row "::type".toList (by decide)
  have g2 := get_buildIdx header row "@type".toList (by decide)
  have g3 := get_buildIdx header row "type".toList (by decide)
  have g4 := get_buildIdx header row "::id".toList (by decide)
  have g5 := get_buildIdx header row "@id".toList (by decide)
  have g6 := get_buildIdx header row "id".toList (by decide)
  refine ⟨?_, ?_, ?_, ?_, rightmostFrom_eq_none 0 header⟩
  · show (if (if get (buildIdx [] 0 header) row "::type".toList = []
        then get (buildIdx [] 0 header) row "@type".toList
        else get (buildIdx [] 0 header) row "::type".toList) = []
      then get (buildIdx [] 0 header) row "type".toList
      else (if get (buildIdx [] 0 header) row "::type".toList = []
        then get (buildIdx [] 0 header) row "@type".toList
        else get (buildIdx [] 0 header) row "::type".toList)) = _
    rw [g1, g2, g3]
    exact synonym_chain _ _ _
  · show (if (if get (buildIdx [] 0 header) row "::id".toList = []
        then get (buildIdx [] 0 header) row "@id".toList
        else get (buildIdx [] 0 header) row "::id".toList) = []
      then get (buildIdx [] 0 header) row "id".toList
      else (if get (buildIdx [] 0 header) row "::id".toList = []
        then get (buildIdx [] 0 header) row "@id".toList
        else get (buildIdx [] 0 header) row "::id".toList)) = _
    rw [g4, g5, g6]
    exact synonym_chain _ _ _
  · intro p hp
    obtain ⟨name, slat, slon, heq⟩ := mapHeaderRow_eq (buildIdx [] 0 header) row
    rw [heq] at hp
    obtain ⟨lat, lon, _, _, hpe⟩ := (withCoords_eq_some _ _ _ _ _ _).1 hp
    rw [hpe]
    exact ⟨rfl, rfl⟩
  · intro name i
    rw [rightmostFrom_eq_some]
    constructor
    · rintro ⟨k, hik, hcol, hmax⟩
      have : i = k := by omega
      subst this
      exact ⟨hcol, hmax⟩
    · rintro ⟨hcol, hmax⟩
      exact ⟨i, by omega, hcol, hmax⟩

/-- Witness of C18: with the header `::type,type,id,ID,::lat,::lon` and the row
`,way,8,9,1,2`, the empty `::type` cell is passed over for the `type` column,
and of the two columns named `id` the right one gives the identifier 9. -/
theorem C18_header_resolution_witness :
    headerType (buildIdx [] 0 (parseCsvLine "::type,type,id,ID,::lat,::lon".toList ','))
        (parseCsvLine ",way,8,9,1,2".toList ',') = "way".toList ∧
      headerId (buildIdx [] 0 (parseCsvLine "::type,type,id,ID,::lat,::lon".toList ','))
        (parseCsvLine ",way,8,9,1,2".toList ',') = "9".toList :=
  have h := (C18_header_resolution (parseCsvLine "::type,type,id,ID,::lat,::lon".toList ',')
    (parseCsvLine ",way,8,9,1,2".toList ',')).2.2.1
    { osm_type := "way".toList, osm_id := "9".toList, name := [],
      lat := Dbl.finite 1, lon := Dbl.finite 2 } (by decide!)
  ⟨h.1.symm, h.2.symm⟩

/-! ## Column accesses stay inside the row -/

/-- The checked `get` never reads outside the row, and returns what `get` returns. -/
theorem getChecked_eq (idx : HeaderMap) (cols : List Str) (key : Str) :
    getChecked idx cols key = some (get idx cols key) := by
  unfold getChecked get
  cases idxFind idx (lowerStr key) with
  | none => rfl
  | some i =>
    by_cases hi : i < cols.length
    · simp [hi, List.getElem?_eq_getElem hi]
    · simp [hi]

/-- The checked header branch never reads outside the row. -/
theorem mapHeaderRowChecked_eq (idx : HeaderMap) (cols : List Str) :
    mapHeaderRowChecked idx cols = some (mapHeaderRow idx cols) := by
  have hif : ∀ (c : Prop) [Decidable c] (x y : Str),
      (if c then some x else some y) = some (if c then x else y) := by
    intro c _ x y
    split_ifs <;> rfl
  simp only [mapHeaderRowChecked, mapHeaderRow, getChecked_eq, hif, Option.some_bind]

/-- The checked positional branch never reads outside the row. -/
theorem mapPositionalRowChecked_eq (cols : List Str) :
    mapPositionalRowChecked cols = some (mapPositionalRow cols) := by
  unfold mapPositionalRowChecked mapPositionalRow
  by_cases h : cols.length < 8
  · simp [h]
  · have h0 : cols[0]? = some (cols.get ⟨0, by omega⟩) := List.getElem?_eq_getElem _
    have h1 : cols[1]? = some (cols.get ⟨1, by omega⟩) := List.getElem?_eq_getElem _
    have h2 : cols[2]? = some (cols.get ⟨2, by omega⟩) := List.getElem?_eq_getElem _
    have h6 : cols[6]? = some (cols.get ⟨6, by omega⟩) := List.getElem?_eq_getElem _
    have h7 : cols[7]? = some (cols.get ⟨7, by omega⟩) := List.getElem?_eq_getElem _
    simp only [h, if_false, dite_false, h0, h1, h2, h6, h7, Option.some_bind]

/-- C20: for every header map and every data row of any length, no column access
of the row mapper falls outside the row: the mapper with checked accesses never
fails and gives the result of the mapper; in header mode an index taken from
the header map is used only when it is smaller than the number of fields of the
row, and otherwise the field is empty; in positional mode the fields 0, 1, 2, 6
and 7 are read only when the row has at least 8 fields, and all exist then. -/
theorem C20_accesses_in_bounds (haveHeader : Bool) (idx : HeaderMap) (cols : List Str) :
    mapRowChecked haveHeader idx cols = some (mapRow haveHeader idx cols) ∧
      (∀ key, getChecked idx cols key = some (get idx cols key)) ∧
      (∀ key i, idxFind idx (lowerStr key) = some i → cols.length ≤ i →
        get idx cols key = []) ∧
      (∀ key i, idxFind idx (lowerStr key) = some i → i < cols.length →
        ∃ cell, cols[i]? = some cell ∧ get idx cols key = trim cell) ∧
      (cols.length < 8 → mapPositionalRowChecked cols = some none) ∧
      (8 ≤ cols.length → ∀ i ∈ [0, 1, 2, 6, 7], ∃ cell, cols[i]? = some cell) := by
  refine ⟨?_, getChecked_eq idx cols, ?_, ?_, ?_, ?_⟩
  · cases haveHeader with
    | true => simpa [mapRowChecked, mapRow] using mapHeaderRowChecked_eq idx cols
    | false => simpa [mapRowChecked, mapRow] using mapPositionalRowChecked_eq cols
  · intro key i hf hlen
    have hi : ¬i < cols.length := by omega
    simp [get, hf, hi]
  · intro key i hf hlen
    exact ⟨cols.get ⟨i, hlen⟩, List.getElem?_eq_getElem _, by simp [get, hf, hlen]⟩
  · intro h
    simp [mapPositionalRowChecked, h]
  · intro h i hi
    have hlt : i < cols.length := by
      simp only [List.mem_cons, List.mem_singleton, List.not_mem_nil, or_false] at hi
      omega
    exact ⟨cols.get ⟨i, hlt⟩, List.getElem?_eq_getElem _⟩

/-- Witness of C20: with the header `::type,::id,name,::lat,::lon`, the data row
`way,1` is shorter than the header; the name and the coordinates are read as
empty and no access leaves the row. -/
theorem C20_accesses_in_bounds_witness :
    get (buildIdx [] 0 (parseCsvLine "::type,::id,name,::lat,::lon".toList ','))
      (parseCsvLine "way,1".toList ',') "::lat".toList = [] :=
  (C20_accesses_in_bounds true
    (buildIdx [] 0 (parseCsvLine "::type,::id,name,::lat,::lon".toList ','))
    (parseCsvLine "way,1".toList ',')).2.2.1 "::lat".toList 3 (by decide) (by decide)

/-! ## Latitude and longitude of the records read -/

/-- A record is among the records of a sequence of rows under a mapper exactly
when the mapper gives it for a non-empty row of the sequence and it passes the
filters. -/
theorem mem_mappedPoints (cfg : Config) (mapper : List Str → Option Point) (lines : List Str)
    (p : Point) :
    p ∈ mappedPoints cfg mapper lines ↔
      ∃ line ∈ lines, line ≠ [] ∧ mapper (parseCsvLine line ',') = some p ∧
        passesFilters cfg p = true := by
  unfold mappedPoints
  rw [List.mem_filterMap]
  constructor
  · rintro ⟨line, hl, h⟩
    by_cases hne : line = []
    · simp [hne] at h
    · rw [if_neg hne] at h
      cases hm : mapper (parseCsvLine line ',') with
      | none => rw [hm] at h; simp [Option.filter] at h
      | some q =>
        rw [hm] at h
        by_cases hf : passesFilters cfg q = true
        · have hq : q = p := by simpa [Option.filter, hf] using h
          subst hq
          exact ⟨line, hl, hne, hm, hf⟩
        · simp [Option.filter, hf] at h
  · rintro ⟨line, hl, hne, hm, hf⟩
    exact ⟨line, hl, by simp [hne, hm, Option.filter, hf]⟩

/-- Every record read comes from a row of the input: from a row mapped with the
positional layout, or from a row mapped through the header map built from a
header row of the input. -/
theorem mem_readPoints (cfg : Config) (lines : List Str) (p : Point)
    (hp : p ∈ readPoints cfg lines) :
    ∃ line ∈ lines, ∃ (haveHeader : Bool) (idx : HeaderMap),
      (haveHeader = false ∨
        ∃ h ∈ lines, isHeaderLine h = true ∧ idx = buildIdx [] 0 (parseCsvLine h ',')) ∧
      mapRow haveHeader idx (parseCsvLine line ',') = some p ∧
      passesFilters cfg p = true := by
  have hsplit := readLoop_no_header cfg lines {} rfl
  rw [readPoints, hsplit] at hp
  have htake : ∀ l ∈ lines.takeWhile (fun l => !isHeaderLine l), l ∈ lines :=
    fun l hl => (List.takeWhile_sublist _).subset hl
  have hdrop : ∀ l ∈ lines.dropWhile (fun l => !isHeaderLine l), l ∈ lines :=
    fun l hl => (List.dropWhile_sublist _).subset hl
  rcases List.mem_append.1 hp with hp1 | hp2
  · have hp1' : p ∈ mappedPoints cfg mapPositionalRow
        (lines.takeWhile fun l => !isHeaderLine l) := by simpa using hp1
    obtain ⟨line, hl, _, hm, hf⟩ := (mem_mappedPoints _ _ _ _).1 hp1'
    exact ⟨line, htake line hl, false, [], Or.inl rfl, by simpa [mapRow] using hm, hf⟩
  · cases hd : lines.dropWhile (fun l => !isHeaderLine l) with
    | nil => rw [hd] at hp2; simp at hp2
    | cons h rest =>
      rw [hd] at hp2
      have hhead : isHeaderLine h = true := by
        have := List.head_dropWhile_not (fun l => !isHeaderLine l) lines
          (by rw [hd]; simp)
        simpa [hd] using this
      have hh : h ∈ lines := hdrop h (by rw [hd]; simp)
      obtain ⟨line, hl, _, hm, hf⟩ := (mem_mappedPoints _ _ _ _).1 hp2
      have hline : line ∈ lines := hdrop line (by rw [hd]; exact List.mem_cons_of_mem _ hl)
      exact ⟨line, hline, true, buildIdx [] 0 (parseCsvLine h ','),
        Or.inr ⟨h, hh, hhead, rfl⟩, by simpa [mapRow] using hm, hf⟩

/-- The coordinates of a mapped record are what `parseDouble` gives for the
latitude text and the longitude text of the row. -/
theorem mapRow_texts (haveHeader : Bool) (idx : HeaderMap) (cols : List Str) (p : Point)
    (h : mapRow haveHeader idx cols = some p) :
    parseDouble (latText haveHeader idx cols) = some p.lat ∧
      parseDouble (lonText haveHeader idx cols) = some p.lon := by
  cases haveHeader with
  | true =>
    simp only [mapRow, if_true, mapHeaderRow] at h
    obtain ⟨lat, lon, h1, h2, hp⟩ := (withCoords_eq_some _ _ _ _ _ _).1 h
    rw [hp]
    exact ⟨h1, h2⟩
  | false =>
    simp only [mapRow, Bool.false_eq_true, if_false] at h
    obtain ⟨_, lat, lon, h1, h2, hp⟩ := (mapPositionalRow_eq_some _ _).1 h
    rw [hp]
    exact ⟨h1, h2⟩

/-- A row is rejected when `strtod` converts nothing of its latitude text or of
its longitude text. -/
theorem mapRow_eq_none_of_unconverted (haveHeader : Bool) (idx : HeaderMap) (cols : List Str)
    (hbad : (strtod (latText haveHeader idx cols)).2 = 0 ∨
      (strtod (lonText haveHeader idx cols)).2 = 0) :
    mapRow haveHeader idx cols = none := by
  cases hm : mapRow haveHeader idx cols with
  | none => rfl
  | some p =>
    obtain ⟨h1, h2⟩ := mapRow_texts haveHeader idx cols p hm
    rcases hbad with hb | hb
    · exact absurd hb ((parseDouble_eq_some _ _).1 h1).1
    · exact absurd hb ((parseDouble_eq_some _ _).1 h2).1

/-- A text that begins with `infinity` begins with `inf`. -/
theorem inf_of_infinity (low : Str) (h : "infinity".toList.isPrefixOf low = true) :
    "inf".toList.isPrefixOf low = true := by
  have h1 := List.isPrefixOf_iff_prefix.1 h
  have h2 : "inf".toList <+: "infinity".toList := ⟨"inity".toList, rfl⟩
  exact List.isPrefixOf_iff_prefix.2 (h2.trans h1)

/-- The subject sequence gives a finite value exactly when the text does not begin
with `inf` or `nan`. -/
theorem subject_isFinite (t : Str) (v : Dbl) (n : Nat) (h : subject t = some (v, n)) :
    v.isFinite = !("inf".toList.isPrefixOf (lowerStr t) || "nan".toList.isPrefixOf (lowerStr t)) := by
  unfold subject at h
  dsimp only at h
  by_cases h1 : "infinity".toList.isPrefixOf (lowerStr t) = true
  · rw [if_pos h1] at h
    have hinf := inf_of_infinity _ h1
    have hv : v = Dbl.inf false := by
      have := (Option.some.inj h)
      exact (congrArg Prod.fst this).symm
    rw [hv, hinf]
    rfl
  · rw [if_neg h1] at h
    by_cases h2 : "inf".toList.isPrefixOf (lowerStr t) = true
    · rw [if_pos h2] at h
      have hv : v = Dbl.inf false := (congrArg Prod.fst (Option.some.inj h)).symm
      rw [hv, h2]
      rfl
    · rw [if_neg h2] at h
      have h2' : "inf".toList.isPrefixOf (lowerStr t) = false := Bool.eq_false_iff.2 h2
      by_cases h3 : "nan".toList.isPrefixOf (lowerStr t) = true
      · rw [if_pos h3] at h
        have hv : v = Dbl.nan := by
          split at h
          · split_ifs at h
            · exact (congrArg Prod.fst (Option.some.inj h)).symm
            · exact (congrArg Prod.fst (Option.some.inj h)).symm
          · exact (congrArg Prod.fst (Option.some.inj h)).symm
        rw [hv, h2', h3]
        rfl
      · rw [if_neg h3] at h
        have h3' : "nan".toList.isPrefixOf (lowerStr t) = false := Bool.eq_false_iff.2 h3
        have hv : ∃ q, v = Dbl.finite q := by
          split at h
          · exact ⟨_, (congrArg Prod.fst (Option.some.inj h)).symm⟩
          · split at h
            · exact ⟨_, (congrArg Prod.fst (Option.some.inj h)).symm⟩
            · exact absurd h (by simp)
        obtain ⟨q, hq⟩ := hv
        rw [hq, h2', h3']
        rfl

/-- The value `parseDouble` gives is what `strtod` converted from a non-empty
initial part of the text, and it is a finite number exactly when the text does
not begin, after white space and sign, with `inf` or `nan` and does not write a
number that overflows. -/
theorem parseDouble_isFinite (s : Str) (d : Dbl) (h : parseDouble s = some d) :
    (strtod s).2 ≠ 0 ∧ d = (strtod s).1 ∧
      (d.isFinite = true ↔ spellsInfOrNan s = false ∧ overflows s = false) := by
  obtain ⟨hn, hd⟩ := (parseDouble_eq_some s d).1 h
  refine ⟨hn, hd, ?_⟩
  have hstrtod : strtod s =
      match subject (numberText s) with
      | some (v, n) =>
        (signed (signOf (s.drop (s.takeWhile isSpaceC).length)).1 v,
          (s.takeWhile isSpaceC).length + (signOf (s.drop (s.takeWhile isSpaceC).length)).2 + n)
      | none => (Dbl.finite 0, 0) := rfl
  cases hsub : subject (numberText s) with
  | none =>
    rw [hstrtod, hsub] at hn
    exact absurd rfl hn
  | some vn =>
    obtain ⟨v, n⟩ := vn
    have hkind := subject_isFinite (numberText s) v n hsub
    rw [hstrtod, hsub] at hd
    simp only at hd
    have hspell : spellsInfOrNan s = !v.isFinite := by
      rw [hkind]
      simp [spellsInfOrNan]
    cases v with
    | finite q =>
      have hover : overflows s = decide (overflowBound ≤ q) := by
        simp [overflows, hsub]
      rw [hspell, hover, hd]
      by_cases hq : overflowBound ≤ q
      · simp [signed, hq, Dbl.isFinite]
      · simp [signed, hq, Dbl.isFinite]
    | inf b =>
      rw [hspell, hd]
      simp [signed, Dbl.isFinite]
    | nan =>
      rw [hspell, hd]
      simp [signed, Dbl.isFinite]

/-- C10 (as amended): every record that survives the mapper and the filter stage
comes from a row of the input, mapped with the positional layout or through
the header map of a header row of the input, whose latitude text and longitude
text each have a non-empty initial part that `strtod` converts, and its
latitude and longitude are the converted values; such a value is a finite
number unless the text, after white space and sign, begins with `inf` or `nan`
in any letter case or writes a number of magnitude `2^1024 - 2^970` or more; a
row whose latitude or longitude text has no initial part that `strtod` can
convert is rejected. -/
theorem C10_coordinates_converted (cfg : Config) (lines : List Str) :
    (∀ p ∈ readPoints cfg lines, ∃ line ∈ lines, ∃ (haveHeader : Bool) (idx : HeaderMap),
      (haveHeader = false ∨
        ∃ h ∈ lines, isHeaderLine h = true ∧ idx = buildIdx [] 0 (parseCsvLine h ',')) ∧
      mapRow haveHeader idx (parseCsvLine line ',') = some p ∧
      parseDouble (latText haveHeader idx (parseCsvLine line ',')) = some p.lat ∧
      parseDouble (lonText haveHeader idx (parseCsvLine line ',')) = some p.lon ∧
      (p.lat.isFinite = true ↔
        spellsInfOrNan (latText haveHeader idx (parseCsvLine line ',')) = false ∧
        overflows (latText haveHeader idx (parseCsvLine line ',')) = false) ∧
      (p.lon.isFinite = true ↔
        spellsInfOrNan (lonText haveHeader idx (parseCsvLine line ',')) = false ∧
        overflows (lonText haveHeader idx (parseCsvLine line ',')) = false)) ∧
    (∀ (s : Str) (d : Dbl), parseDouble s = some d →
      (strtod s).2 ≠ 0 ∧ d = (strtod s).1 ∧
      (d.isFinite = true ↔ spellsInfOrNan s = false ∧ overflows s = false)) ∧
    (∀ (haveHeader : Bool) (idx : HeaderMap) (cols : List Str),
      (strtod (latText haveHeader idx cols)).2 = 0 ∨
        (strtod (lonText haveHeader idx cols)).2 = 0 →
      mapRow haveHeader idx cols = none) := by
  refine ⟨?_, parseDouble_isFinite, mapRow_eq_none_of_unconverted⟩
  intro p hp
  obtain ⟨line, hl, hh, idx, hmode, hm, _⟩ := mem_readPoints cfg lines p hp
  obtain ⟨h1, h2⟩ := mapRow_texts hh idx _ p hm
  exact ⟨line, hl, hh, idx, hmode, hm, h1, h2, (parseDouble_isFinite _ _ h1).2.2,
    (parseDouble_isFinite _ _ h2).2.2⟩

/-- Witness of C10: the row `way,1,Cafe,,,,abc,20` has a latitude text of which
`strtod` converts nothing, and is rejected. -/
theorem C10_coordinates_converted_witness :
    mapRow false [] (parseCsvLine "way,1,Cafe,,,,abc,20".toList ',') = none :=
  (C10_coordinates_converted {} []).2.2 false []
    (parseCsvLine "way,1,Cafe,,,,abc,20".toList ',') (Or.inl (by decide))

/-! ## Evaluations of the embedding on sample inputs -/

example : parseCsvLine "a,\"b\"\"c,\",d\r".toList ',' = ["a".toList, "b\"c,".toList, "d".toList] := by
  decide
example : trim " \t a b\t ".toList = "a b".toList := by decide
example : trim " \t ".toList = [] := by decide
example : looksLikeHeader ["@Type".toList] = true := by decide
example : looksLikeHeader ["node".toList] = false := by decide
example : strtod "nan".toList = (Dbl.nan, 3) := by decide
example : strtod "  -inFinity".toList = (Dbl.inf true, 11) := by decide
example : strtod "abc".toList = (Dbl.finite 0, 0) := by decide
example : strtod "".toList = (Dbl.finite 0, 0) := by decide
example : strtod ".".toList = (Dbl.finite 0, 0) := by decide
example : strtod "12abc".toList = (Dbl.finite 12, 2) := by decide!
example : strtod "10.5e1x".toList = (Dbl.finite 105, 6) := by decide!
example : strtod "-1.25".toList = (Dbl.finite (-5/4), 5) := by decide!
example : strtod "0x1.8p1".toList = (Dbl.finite 3, 7) := by decide!
example : strtod "0xg".toList = (Dbl.finite 0, 1) := by decide!
example : strtod "1e999".toList = (Dbl.inf false, 5) := by decide!
example : strtod "5.e".toList = (Dbl.finite 5, 2) := by decide!
example : strtod "nan(ab1)x".toList = (Dbl.nan, 8) := by decide!
example : strtod "nan(ab".toList = (Dbl.nan, 3) := by decide!
example : atoi " -12x".toList = -12 := by decide!
example : atoi "x".toList = 0 := by decide!
example : atoi "2147483647".toList = 2147483647 := by decide!
example : atoi "2147483648".toList = -2147483648 := by decide!
example : atoi "4294967297".toList = 1 := by decide!
example : atoi "99999999999999999999".toList = -1 := by decide!
example : strtod "0.1".toList =
    (Dbl.finite (3602879701896397 / 36028797018963968), 3) := by decide!
example : strtod "0.5".toList = (Dbl.finite (1 / 2), 3) := by decide!
example : strtod "1e-400".toList = (Dbl.finite 0, 6) := by decide!
example : strtod "5e-324".toList = (Dbl.finite (scale 1 2 (-1074)), 6) := by decide!
example : strtod "9007199254740993".toList = (Dbl.finite 9007199254740992, 16) := by decide!
example : strtod "1.7976931348623157e308".toList =
    (Dbl.finite ((2 ^ 1024 - 2 ^ 971 : Nat) : ℚ), 22) := by decide!
example : strtod "1.7976931348623159e308".toList = (Dbl.inf false, 22) := by decide!

end OsmWifiPrep
